import Mathlib

/-!
Verification of the ex_vrp local-search engine (C++ sources: ex_vrp_nif.cpp,
pyvrp/search/LocalSearch.cpp, pyvrp/search/Solution.cpp) against its
natural-language specification.  Integer measures (Cost, Distance, Duration,
Load) are modelled as `Int`; sizes and indices as `Nat`.  Components of the
engine whose sources are not part of the three files above (the Route cache,
the cost primitives insertCost/removeCost/inplaceCost, the RNG core) are
modelled from the specification and marked as such in their doc comments.
-/

/-- Sentinel for "infinity" on 64-bit signed measures
(`std::numeric_limits<T>::max()`). -/
def MAXI : Int := 2 ^ 63 - 1

-- ---------------------------------------------------------------------------
-- Cost evaluator construction (create_cost_evaluator_nif, ex_vrp_nif.cpp:2150)
-- ---------------------------------------------------------------------------

/-- Decoded options of `create_cost_evaluator_nif`: the penalty components,
after the host-term decoding has produced plain numbers (doubles are modelled
as rationals).  Missing keys default to `tw_penalty = 1`, `dist_penalty = 1`
and an empty load-penalty list in the C++ code; the decoded record carries the
resulting values. -/
structure EvalOpts where
  load_penalties : List ℚ
  tw_penalty : ℚ
  dist_penalty : ℚ

/-- The constructed cost-evaluator configuration. -/
structure CostEvaluatorCfg where
  load_penalties : List ℚ
  tw_penalty : ℚ
  dist_penalty : ℚ

/-- create_cost_evaluator_nif (ex_vrp_nif.cpp:2150): validates that every load
penalty, the time-warp penalty and the distance penalty are non-negative, and
throws otherwise. -/
def create_cost_evaluator (opts : EvalOpts) : Except String CostEvaluatorCfg :=
  if opts.load_penalties.any (fun p => decide (p < 0)) then
    Except.error "Load penalties must be non-negative"
  else if opts.tw_penalty < 0 ∨ opts.dist_penalty < 0 then
    Except.error "Penalties must be non-negative"
  else
    Except.ok ⟨opts.load_penalties, opts.tw_penalty, opts.dist_penalty⟩

/-- C8: cost-evaluator construction fails if and only if some penalty
component is negative: some load penalty, the time-warp penalty, or the
distance penalty. -/
theorem create_cost_evaluator_fails_iff_negative_penalty (opts : EvalOpts) :
    (create_cost_evaluator opts).isOk = false ↔
      ((∃ p ∈ opts.load_penalties, p < 0) ∨ opts.tw_penalty < 0 ∨ opts.dist_penalty < 0) := by
  unfold create_cost_evaluator
  split_ifs with h1 h2
  · exact iff_of_true rfl (Or.inl (by simpa using h1))
  · exact iff_of_true rfl (Or.inr h2)
  · refine iff_of_false (by simp [Except.isOk, Except.toBool]) ?_
    rintro (hneg | h)
    · exact h1 (by simpa using hneg)
    · exact h2 h

-- ---------------------------------------------------------------------------
-- Euclidean matrix generation (create_problem_data, ex_vrp_nif.cpp:1202)
-- ---------------------------------------------------------------------------

/-- Nearest integer to the square root of `n`: `Nat.sqrt n`, bumped by one when
`n` is closer to the next square.  `round (Real.sqrt n) = m` holds exactly when
`n ≤ m * m + m` fails for `m = Nat.sqrt n` only on the upper half of the gap
between consecutive squares. -/
def isqrtRound (n : Nat) : Nat :=
  if n ≤ Nat.sqrt n * Nat.sqrt n + Nat.sqrt n then Nat.sqrt n else Nat.sqrt n + 1

/-- euclidean_distance (ex_vrp_nif.cpp:943): `round(sqrt(dx*dx + dy*dy))`.
The C++ double-precision computation is modelled by exact rounding of the
real square root of the integer squared distance. -/
def euclidean_distance (x1 y1 x2 y2 : Int) : Int :=
  (isqrtRound ((x2 - x1) ^ 2 + (y2 - y1) ^ 2).toNat : Int)

/-- The coordinate data `create_problem_data` reads through its `get_coords`
helper (ex_vrp_nif.cpp:1209): depots first, then clients. -/
structure Coords where
  depotCoords : List (Int × Int)
  clientCoords : List (Int × Int)

/-- get_coords (ex_vrp_nif.cpp:1209): depot coordinates for indices below
`num_depots`, client coordinates above. -/
def get_coords (c : Coords) (idx : Nat) : Int × Int :=
  if idx < c.depotCoords.length then c.depotCoords.getD idx (0, 0)
  else c.clientCoords.getD (idx - c.depotCoords.length) (0, 0)

/-- The matrix generated at ex_vrp_nif.cpp:1223-1233: pairwise rounded
Euclidean distances over all locations. -/
def gen_euclidean_matrix (c : Coords) : Nat → Nat → Int := fun i j =>
  euclidean_distance (get_coords c i).1 (get_coords c i).2
    (get_coords c j).1 (get_coords c j).2

/-- Matrix-construction portion of create_problem_data (ex_vrp_nif.cpp:1202):
if no distance matrices were decoded, a single distance matrix is generated
from coordinates, and the same matrix is appended to whatever duration
matrices were already decoded (ex_vrp_nif.cpp:1235-1236 push_back onto both
vectors). -/
def create_problem_data_matrices (c : Coords)
    (dist_in dur_in : List (Nat → Nat → Int)) :
    List (Nat → Nat → Int) × List (Nat → Nat → Int) :=
  if dist_in.isEmpty then
    ([gen_euclidean_matrix c], dur_in ++ [gen_euclidean_matrix c])
  else (dist_in, dur_in)

theorem isqrtRound_spec (n : Nat) :
    n ≤ isqrtRound n * isqrtRound n + isqrtRound n ∧
      (isqrtRound n = 0 ∨ isqrtRound n * isqrtRound n - isqrtRound n < n) := by
  have h1 : Nat.sqrt n * Nat.sqrt n ≤ n := by
    have := Nat.sqrt_le' n
    rwa [pow_two] at this
  have h2 : n < (Nat.sqrt n + 1) * (Nat.sqrt n + 1) := by
    have := Nat.lt_succ_sqrt' n
    rwa [Nat.succ_eq_add_one, pow_two] at this
  unfold isqrtRound
  split_ifs with h
  · refine ⟨h, ?_⟩
    rcases Nat.eq_zero_or_pos (Nat.sqrt n) with h0 | h0
    · exact Or.inl h0
    · exact Or.inr (lt_of_lt_of_le (Nat.sub_lt (Nat.mul_pos h0 h0) h0) h1)
  · refine ⟨le_trans (Nat.le_of_lt h2) (Nat.le_add_right _ _), Or.inr ?_⟩
    have hexp : (Nat.sqrt n + 1) * (Nat.sqrt n + 1)
        = Nat.sqrt n * Nat.sqrt n + Nat.sqrt n + (Nat.sqrt n + 1) := by ring
    rw [hexp, Nat.add_sub_cancel]
    omega

theorem isqrtRound_specInt (s : Int) (hs : 0 ≤ s) :
    s ≤ (isqrtRound s.toNat : Int) * (isqrtRound s.toNat : Int) + (isqrtRound s.toNat : Int) ∧
      ((isqrtRound s.toNat : Int) = 0 ∨
        (isqrtRound s.toNat : Int) * (isqrtRound s.toNat : Int)
          - (isqrtRound s.toNat : Int) < s) := by
  obtain ⟨hu, hl⟩ := isqrtRound_spec s.toNat
  have hsn : s = (s.toNat : Int) := (Int.toNat_of_nonneg hs).symm
  set m := isqrtRound s.toNat with hm
  constructor
  · rw [hsn]
    exact_mod_cast hu
  · rcases hl with h0 | h0
    · exact Or.inl (by exact_mod_cast h0)
    · right
      rw [hsn]
      rcases Nat.eq_zero_or_pos m with hz | hp
      · rw [hz] at h0 ⊢
        simp only [Nat.mul_zero, Nat.zero_sub] at h0
        simpa using (by exact_mod_cast h0 : (0 : Int) < (s.toNat : Int))
      · have hle : m ≤ m * m := Nat.le_mul_of_pos_left _ hp
        have hcast : ((m * m - m : Nat) : Int) = (m : Int) * (m : Int) - (m : Int) := by
          rw [Nat.cast_sub hle]
          push_cast
          ring
        rw [← hcast]
        exact_mod_cast h0

/-- C9 (amended): when neither distance matrices nor duration matrices are
supplied, create_problem_data builds exactly one travel profile; its duration
matrix equals its distance matrix (unit speed), every diagonal entry is 0, and
each entry `d` is the integer nearest to the Euclidean distance between the
two locations, characterised exactly by `d*d - d < dx*dx + dy*dy ≤ d*d + d`
(with `d = 0` allowed in place of the strict lower bound, which is vacuous
there).  When duration matrices are supplied without distance matrices, the
generated matrix is merely appended to them (see
`generated_duration_appended_to_supplied`). -/
theorem create_problem_data_euclidean_default (c : Coords)
    (dist_in dur_in : List (Nat → Nat → Int)) (h : dist_in = [])
    (hdur : dur_in = []) :
    (create_problem_data_matrices c dist_in dur_in).1.length = 1 ∧
    (create_problem_data_matrices c dist_in dur_in).2.length = 1 ∧
    (∀ i j,
      (create_problem_data_matrices c dist_in dur_in).2.headD (fun _ _ => 0) i j
        = (create_problem_data_matrices c dist_in dur_in).1.headD (fun _ _ => 0) i j) ∧
    (∀ i,
      (create_problem_data_matrices c dist_in dur_in).1.headD (fun _ _ => 0) i i = 0) ∧
    (∀ i j,
      0 ≤ (create_problem_data_matrices c dist_in dur_in).1.headD (fun _ _ => 0) i j ∧
      ((get_coords c j).1 - (get_coords c i).1) ^ 2
          + ((get_coords c j).2 - (get_coords c i).2) ^ 2
        ≤ (create_problem_data_matrices c dist_in dur_in).1.headD (fun _ _ => 0) i j
            * (create_problem_data_matrices c dist_in dur_in).1.headD (fun _ _ => 0) i j
          + (create_problem_data_matrices c dist_in dur_in).1.headD (fun _ _ => 0) i j ∧
      ((create_problem_data_matrices c dist_in dur_in).1.headD (fun _ _ => 0) i j = 0 ∨
        (create_problem_data_matrices c dist_in dur_in).1.headD (fun _ _ => 0) i j
            * (create_problem_data_matrices c dist_in dur_in).1.headD (fun _ _ => 0) i j
          - (create_problem_data_matrices c dist_in dur_in).1.headD (fun _ _ => 0) i j
        < ((get_coords c j).1 - (get_coords c i).1) ^ 2
            + ((get_coords c j).2 - (get_coords c i).2) ^ 2)) := by
  subst h
  subst hdur
  have hmat : create_problem_data_matrices c [] []
      = ([gen_euclidean_matrix c], [gen_euclidean_matrix c]) := rfl
  rw [hmat]
  refine ⟨rfl, rfl, ?_, ?_, ?_⟩
  · intro i j
    rfl
  · intro i
    simp only [List.headD_cons, gen_euclidean_matrix, euclidean_distance]
    have hz : ((get_coords c i).1 - (get_coords c i).1) ^ 2
        + ((get_coords c i).2 - (get_coords c i).2) ^ 2 = 0 := by ring
    rw [hz]
    decide
  · intro i j
    simp only [List.headD_cons, gen_euclidean_matrix, euclidean_distance]
    have hs : (0 : Int) ≤ ((get_coords c j).1 - (get_coords c i).1) ^ 2
        + ((get_coords c j).2 - (get_coords c i).2) ^ 2 := by positivity
    obtain ⟨h1, h2⟩ := isqrtRound_specInt _ hs
    exact ⟨Int.natCast_nonneg _, h1, h2⟩

/-- C9 counterexample: with one depot at (0,0), one client at (3,4), no
distance matrices but a supplied duration matrix of constant 7, the supplied
matrix is kept and the generated one appended after it (duration list length
2), so the first duration matrix (entry 7) differs from the single generated
distance matrix (entry 5): the spec's "exactly one profile with duration equal
to distance" fails when duration matrices arrive without distance matrices. -/
theorem generated_duration_appended_to_supplied :
    (create_problem_data_matrices ⟨[(0, 0)], [(3, 4)]⟩ [] [fun _ _ => 7]).1.length = 1 ∧
    (create_problem_data_matrices ⟨[(0, 0)], [(3, 4)]⟩ [] [fun _ _ => 7]).2.length = 2 ∧
    (create_problem_data_matrices ⟨[(0, 0)], [(3, 4)]⟩ [] [fun _ _ => 7]).2.headD
        (fun _ _ => 0) 0 1 = 7 ∧
    (create_problem_data_matrices ⟨[(0, 0)], [(3, 4)]⟩ [] [fun _ _ => 7]).1.headD
        (fun _ _ => 0) 0 1 = 5 := by
  refine ⟨rfl, rfl, rfl, ?_⟩
  have hsq : Nat.sqrt 25 = 5 := by simpa using Nat.sqrt_eq' 5
  have hround : isqrtRound 25 = 5 := by
    unfold isqrtRound
    rw [hsq]
    norm_num
  have hentry : (create_problem_data_matrices ⟨[(0, 0)], [(3, 4)]⟩ [] [fun _ _ => 7]).1.headD
      (fun _ _ => 0) 0 1
      = ((isqrtRound ((((3 : Int) - 0) ^ 2 + ((4 : Int) - 0) ^ 2).toNat) : Nat) : Int) := rfl
  have h25 : (((3 : Int) - 0) ^ 2 + ((4 : Int) - 0) ^ 2).toNat = 25 := by decide
  rw [hentry, h25, hround]
  norm_num

-- ---------------------------------------------------------------------------
-- RNG boundary operations (rng_call_nif and friends, ex_vrp_nif.cpp:5095)
-- ---------------------------------------------------------------------------

/-- 2^32, the modulus of the 32-bit generator words. -/
def W32 : Nat := 2 ^ 32

/-- The four-word RNG state (`std::array<uint32_t, 4>`). -/
structure RngState where
  s0 : Nat
  s1 : Nat
  s2 : Nat
  s3 : Nat
deriving DecidableEq

/-- 32-bit left rotation. -/
def rotl32 (x k : Nat) : Nat := ((x <<< k) ||| (x % W32 >>> (32 - k))) % W32

/-- Modelled from the spec: the RNG core (`RandomNumberGenerator`) is not part
of the sources; per spec section 6 it is an `xoshiro128**`-class generator over
u32 with a four-word state, `next() -> u32`.  This is the xoshiro128** step. -/
def rngNext (s : RngState) : Nat × RngState :=
  let result := (rotl32 ((s.s1 * 5) % W32) 7 * 9) % W32
  let t := (s.s1 <<< 9) % W32
  let s2a := s.s2 ^^^ s.s0
  let s3a := s.s3 ^^^ s.s1
  let s1a := s.s1 ^^^ s2a
  let s0a := s.s0 ^^^ s3a
  (result, ⟨s0a % W32, s1a % W32, (s2a ^^^ t) % W32, rotl32 s3a 11⟩)

/-- Modelled from the spec: `rand() -> f64 in [0,1]`, the drawn word scaled by
the generator maximum. -/
def rngRand (s : RngState) : ℚ × RngState :=
  let (v, s2) := rngNext s
  ((v : ℚ) / ((W32 : ℚ) - 1), s2)

/-- Modelled from the spec: `randint(high) -> u32 in [0, high)`, the drawn
word reduced modulo `high`. -/
def rngRandint (s : RngState) (high : Nat) : Nat × RngState :=
  let (v, s2) := rngNext s
  (v % high, s2)

/-- The resource heap of RNG states held by the host runtime: slot `i` is the
state of resource `i`. -/
abbrev RngHeap : Type := List RngState

/-- rng_call_nif (ex_vrp_nif.cpp:5096): copies the addressed resource's state
into a fresh resource, advances only the copy, and returns the fresh resource
id together with the drawn value. -/
def rng_call (h : RngHeap) (id : Nat) : RngHeap × Nat × Nat :=
  let s := List.getD h id ⟨0, 0, 0, 0⟩
  let (v, s2) := rngNext s
  (h ++ [s2], h.length, v)

/-- rng_rand_nif (ex_vrp_nif.cpp:5109): same copy discipline, drawing a
rational in [0,1]. -/
def rng_rand (h : RngHeap) (id : Nat) : RngHeap × Nat × ℚ :=
  let s := List.getD h id ⟨0, 0, 0, 0⟩
  let (v, s2) := rngRand s
  (h ++ [s2], h.length, v)

/-- rng_randint_nif (ex_vrp_nif.cpp:5122): same copy discipline, drawing a
word below `high`. -/
def rng_randint (h : RngHeap) (id : Nat) (high : Nat) : RngHeap × Nat × Nat :=
  let s := List.getD h id ⟨0, 0, 0, 0⟩
  let (v, s2) := rngRandint s high
  (h ++ [s2], h.length, v)

/-- rng_state_nif (ex_vrp_nif.cpp:5136): the four-word state of a resource. -/
def rng_state (h : RngHeap) (id : Nat) : List Nat :=
  let s := List.getD h id ⟨0, 0, 0, 0⟩
  [s.s0, s.s1, s.s2, s.s3]

theorem getD_append_left {α : Type} (l l2 : List α) (j : Nat) (d : α)
    (hj : j < l.length) : List.getD (l ++ l2) j d = List.getD l j d := by
  induction l generalizing j with
  | nil => exact absurd hj (by simp)
  | cons a l ih =>
    cases j with
    | zero => rfl
    | succ j =>
      simp only [List.cons_append, List.getD_cons_succ]
      exact ih j (by simpa using hj)

theorem getD_append_self {α : Type} (l : List α) (x d : α) :
    List.getD (l ++ [x]) l.length d = x := by
  induction l with
  | nil => rfl
  | cons a l ih =>
    simp only [List.cons_append, List.length_cons, List.getD_cons_succ]
    exact ih

/-- C10: the RNG operations at the library boundary are pure in their input:
each of rng_call, rng_rand and rng_randint leaves every existing resource slot
(in particular the input resource's state) unchanged, returns a fresh resource
holding the advanced copy, and repeating the same operation on the same
resource id draws the same value. -/
theorem rng_boundary_ops_pure (h : RngHeap) (id : Nat) (high : Nat)
    (hid : id < h.length) :
    (rng_state (rng_call h id).1 id = rng_state h id ∧
      (∀ j, j < h.length → List.getD (rng_call h id).1 j ⟨0, 0, 0, 0⟩
        = List.getD h j ⟨0, 0, 0, 0⟩) ∧
      (rng_call h id).2.1 = h.length ∧
      rng_state (rng_call h id).1 (rng_call h id).2.1
        = rng_state [(rngNext (List.getD h id ⟨0, 0, 0, 0⟩)).2] 0 ∧
      (rng_call (rng_call h id).1 id).2.2 = (rng_call h id).2.2) ∧
    (rng_state (rng_rand h id).1 id = rng_state h id ∧
      (rng_rand (rng_rand h id).1 id).2.2 = (rng_rand h id).2.2) ∧
    (rng_state (rng_randint h id high).1 id = rng_state h id ∧
      (rng_randint (rng_randint h id high).1 id high).2.2
        = (rng_randint h id high).2.2) := by
  have hcall : ∀ j, j < h.length →
      List.getD (h ++ [(rngNext (List.getD h id ⟨0, 0, 0, 0⟩)).2]) j ⟨0, 0, 0, 0⟩
        = List.getD h j ⟨0, 0, 0, 0⟩ := fun j hj => getD_append_left _ _ _ _ hj
  refine ⟨⟨?_, ?_, rfl, ?_, ?_⟩, ⟨?_, ?_⟩, ⟨?_, ?_⟩⟩
  · simp only [rng_call, rng_state]
    rw [hcall id hid]
  · intro j hj
    simpa [rng_call] using hcall j hj
  · simp only [rng_call, rng_state]
    rw [getD_append_self]
    rfl
  · simp only [rng_call]
    rw [hcall id hid]
  · simp only [rng_rand, rng_state, rngRand]
    rw [hcall id hid]
  · simp only [rng_rand, rngRand]
    rw [hcall id hid]
  · simp only [rng_randint, rng_state, rngRandint]
    rw [hcall id hid]
  · simp only [rng_randint, rngRandint]
    rw [hcall id hid]

/-- Witness for C10 at the concrete heap `[⟨1, 2, 3, 4⟩]`, resource 0. -/
theorem rng_boundary_ops_pure_witness :
    (0 : Nat) < ([⟨1, 2, 3, 4⟩] : RngHeap).length ∧
      rng_state (rng_call [⟨1, 2, 3, 4⟩] 0).1 0 = rng_state [⟨1, 2, 3, 4⟩] 0 ∧
      (rng_call (rng_call [⟨1, 2, 3, 4⟩] 0).1 0).2.2 = (rng_call [⟨1, 2, 3, 4⟩] 0).2.2 := by
  have h := rng_boundary_ops_pure [⟨1, 2, 3, 4⟩] 0 5 (by decide)
  exact ⟨by decide, h.1.1, h.1.2.2.2.2⟩

-- ---------------------------------------------------------------------------
-- Neighbour construction (build_neighbours, ex_vrp_nif.cpp:2614)
-- ---------------------------------------------------------------------------

/-- A proximity value as held in the C++ `edgeCosts` double matrix after
steps 1-8: a finite value, `std::numeric_limits<double>::max()` (used for
mutually exclusive group members), or infinity (diagonal and depot entries).
Finite doubles are modelled as rationals. -/
inductive Prox where
  | fin (q : ℚ)
  | fmax
  | inf
deriving DecidableEq

/-- Strict order of proximity values: finite values by numeric order, below
`fmax`, below `inf`. -/
def Prox.ltP : Prox → Prox → Prop
  | .fin p, .fin q => p < q
  | .fin _, .fmax => True
  | .fin _, .inf => True
  | .fmax, .inf => True
  | _, _ => False

instance instDecidableProxLtP : ∀ a b : Prox, Decidable (Prox.ltP a b) := by
  intro a b
  cases a <;> cases b <;> simp only [Prox.ltP] <;> infer_instance

/-- The comparison `std::pair<double, size_t>::operator<` used by the partial
sort in step 9: lexicographic on (proximity, index), in non-strict form. -/
def pairLe (a b : Prox × Nat) : Prop :=
  Prox.ltP a.1 b.1 ∨ (a.1 = b.1 ∧ a.2 ≤ b.2)

instance instDecidablePairLe : DecidableRel pairLe := by
  intro a b
  unfold pairLe
  infer_instance

theorem Prox.ltP_trans {a b c : Prox} (h1 : Prox.ltP a b) (h2 : Prox.ltP b c) :
    Prox.ltP a c := by
  cases a <;> cases b <;> cases c <;>
    simp only [Prox.ltP] at h1 h2 ⊢ <;> first | trivial | exact lt_trans h1 h2

theorem Prox.ltP_total (a b : Prox) : Prox.ltP a b ∨ a = b ∨ Prox.ltP b a := by
  cases a <;> cases b <;> simp only [Prox.ltP] <;> try tauto
  rename_i p q
  rcases lt_trichotomy p q with h | h | h
  · exact Or.inl h
  · exact Or.inr (Or.inl (by rw [h]))
  · exact Or.inr (Or.inr h)

instance instIsTotalPairLe : IsTotal (Prox × Nat) pairLe := by
  constructor
  intro a b
  rcases Prox.ltP_total a.1 b.1 with h | h | h
  · exact Or.inl (Or.inl h)
  · rcases Nat.le_total a.2 b.2 with h2 | h2
    · exact Or.inl (Or.inr ⟨h, h2⟩)
    · exact Or.inr (Or.inr ⟨h.symm, h2⟩)
  · exact Or.inr (Or.inl h)

instance instIsTransPairLe : IsTrans (Prox × Nat) pairLe := by
  constructor
  rintro a b c (h1 | ⟨he1, hn1⟩) (h2 | ⟨he2, hn2⟩)
  · exact Or.inl (Prox.ltP_trans h1 h2)
  · exact Or.inl (he2 ▸ h1)
  · exact Or.inl (he1 ▸ h2)
  · exact Or.inr ⟨he1.trans he2, le_trans hn1 hn2⟩

/-- A client group as build_neighbours sees it. -/
structure GroupSpec where
  gclients : List Nat
  mutuallyExclusive : Bool

/-- The inputs of steps 6-9 of build_neighbours: location counts, the finite
edge-cost matrix produced by steps 1-5 (edge cost minus prize plus weighted
wait/time-warp penalties), the client groups, `num_k`, and the `symmetric`
flag. -/
structure NbConfig where
  numDepots : Nat
  numClients : Nat
  base : Nat → Nat → ℚ
  groups : List GroupSpec
  numK : Nat
  symmetric : Bool

def numLocs (c : NbConfig) : Nat := c.numDepots + c.numClients

/-- Step 6 (ex_vrp_nif.cpp:2727): when `symmetric`, replace each pair of
opposite entries by their minimum. -/
def symmetrized (c : NbConfig) (i j : Nat) : ℚ :=
  if c.symmetric = true then min (c.base i j) (c.base j i) else c.base i j

/-- Both `i` and `j` belong to some mutually exclusive group, and differ. -/
def inSameExclusiveGroup (c : NbConfig) (i j : Nat) : Prop :=
  ∃ g ∈ c.groups, g.mutuallyExclusive = true ∧ i ∈ g.gclients ∧ j ∈ g.gclients ∧ i ≠ j

instance instDecidableSameGroup (c : NbConfig) (i j : Nat) :
    Decidable (inSameExclusiveGroup c i j) := by
  unfold inSameExclusiveGroup
  infer_instance

/-- Step 7 (ex_vrp_nif.cpp:2741): ordered pairs of distinct members of a
mutually exclusive group get `std::numeric_limits<double>::max()`. -/
def groupAdjusted (c : NbConfig) (i j : Nat) : Prox :=
  if inSameExclusiveGroup c i j then Prox.fmax else Prox.fin (symmetrized c i j)

/-- Step 8 (ex_vrp_nif.cpp:2762): the diagonal and all depot rows and columns
become infinity. -/
def finalProx (c : NbConfig) (i j : Nat) : Prox :=
  if i = j ∨ i < c.numDepots ∨ j < c.numDepots then Prox.inf else groupAdjusted c i j

/-- The client indices `numDepots, ..., numLocs - 1` iterated in step 9. -/
def clientIdxs (c : NbConfig) : List Nat := List.range' c.numDepots c.numClients

/-- The candidate (proximity, index) pairs of client row `i`
(ex_vrp_nif.cpp:2784-2791). -/
def rowPairs (c : NbConfig) (i : Nat) : List (Prox × Nat) :=
  ((clientIdxs c).filter (fun j => j ≠ i)).map (fun j => (finalProx c i j, j))

/-- `k = min(num_k, num_clients - 1)` (ex_vrp_nif.cpp:2781). -/
def kCut (c : NbConfig) : Nat := min c.numK (c.numClients - 1)

/-- Step 9 (ex_vrp_nif.cpp:2793-2806): the first `k` entries of the row in
lexicographic (proximity, index) order; `std::partial_sort` with the strict
pair order produces exactly the prefix of the full stable sort because all
indices are distinct. -/
def selectedRow (c : NbConfig) (i : Nat) : List (Prox × Nat) :=
  (List.insertionSort pairLe (rowPairs c i)).take (kCut c)

/-- The neighbour list of client `i` produced by build_neighbours. -/
def neighboursOf (c : NbConfig) (i : Nat) : List Nat :=
  (selectedRow c i).map (fun p => p.2)

theorem mem_range'_iff (s n j : Nat) : j ∈ List.range' s n ↔ s ≤ j ∧ j < s + n := by
  induction n generalizing s with
  | zero => simp [List.range']
  | succ n ih =>
    simp only [List.range', List.mem_cons, ih]
    omega

theorem nodup_range'_one (s n : Nat) : (List.range' s n).Nodup := by
  induction n generalizing s with
  | zero => simp [List.range']
  | succ n ih =>
    simp only [List.range', List.nodup_cons]
    exact ⟨fun hmem => by have := (mem_range'_iff _ _ _).mp hmem; omega, ih (s + 1)⟩

theorem length_filter_ne (l : List Nat) (i : Nat) (hl : l.Nodup) (hi : i ∈ l) :
    (l.filter (fun j => j ≠ i)).length = l.length - 1 := by
  induction l with
  | nil => cases hi
  | cons a l ih =>
    rcases List.mem_cons.mp hi with heq | hi2
    · subst heq
      have hni : i ∉ l := (List.nodup_cons.mp hl).1
      have hfe : l.filter (fun j => decide (j ≠ i)) = l :=
        List.filter_eq_self.mpr (fun x hx => decide_eq_true (fun he => hni (he ▸ hx)))
      rw [List.filter_cons, if_neg (by simp), hfe, List.length_cons]
      omega
    · have ha : a ≠ i := by
        rintro rfl
        exact (List.nodup_cons.mp hl).1 hi2
      have hrec := ih (List.nodup_cons.mp hl).2 hi2
      have hlen : 1 ≤ l.length := List.length_pos.mpr (List.ne_nil_of_mem hi2)
      rw [List.filter_cons, if_pos (decide_eq_true ha), List.length_cons, hrec,
        List.length_cons]
      omega

theorem mem_rowPairs {c : NbConfig} {i : Nat} {p : Prox × Nat} (hp : p ∈ rowPairs c i) :
    p = (finalProx c i p.2, p.2) ∧ c.numDepots ≤ p.2 ∧ p.2 < numLocs c ∧ p.2 ≠ i := by
  unfold rowPairs at hp
  rcases List.mem_map.mp hp with ⟨j, hj, rfl⟩
  rcases List.mem_filter.mp hj with ⟨hj1, hj2⟩
  have hj3 := (mem_range'_iff _ _ _).mp hj1
  exact ⟨rfl, hj3.1, by simpa [numLocs] using hj3.2, of_decide_eq_true hj2⟩

theorem rowPairs_mem_of (c : NbConfig) (i j : Nat) (h1 : c.numDepots ≤ j)
    (h2 : j < numLocs c) (h3 : j ≠ i) : (finalProx c i j, j) ∈ rowPairs c i := by
  unfold rowPairs
  refine List.mem_map.mpr ⟨j, List.mem_filter.mpr ⟨?_, decide_eq_true h3⟩, rfl⟩
  exact (mem_range'_iff _ _ _).mpr ⟨h1, by simpa [numLocs] using h2⟩

theorem rowPairs_length (c : NbConfig) (i : Nat) (hi1 : c.numDepots ≤ i)
    (hi2 : i < numLocs c) : (rowPairs c i).length = c.numClients - 1 := by
  unfold rowPairs clientIdxs
  rw [List.length_map]
  have hi : i ∈ List.range' c.numDepots c.numClients :=
    (mem_range'_iff _ _ _).mpr ⟨hi1, by simpa [numLocs] using hi2⟩
  rw [length_filter_ne _ _ (nodup_range'_one _ _) hi, List.length_range']

theorem selectedRow_le_rest (c : NbConfig) (i : Nat) :
    ∀ p ∈ selectedRow c i, ∀ q ∈ rowPairs c i, q.2 ∉ neighboursOf c i → pairLe p q := by
  intro p hp q hq hq2
  have hsorted : List.Sorted pairLe (List.insertionSort pairLe (rowPairs c i)) :=
    List.sorted_insertionSort pairLe _
  have hperm := List.perm_insertionSort pairLe (rowPairs c i)
  have hqs : q ∈ List.insertionSort pairLe (rowPairs c i) := hperm.mem_iff.mpr hq
  have hqt : q ∉ selectedRow c i := fun hmem => hq2 (List.mem_map_of_mem _ hmem)
  have hqd : q ∈ (List.insertionSort pairLe (rowPairs c i)).drop (kCut c) := by
    rcases List.mem_append.mp
        (by rw [List.take_append_drop (kCut c) (List.insertionSort pairLe (rowPairs c i))]
            exact hqs) with hmem | hmem
    · exact absurd hmem hqt
    · exact hmem
  have hpw : List.Pairwise pairLe
      ((List.insertionSort pairLe (rowPairs c i)).take (kCut c)
        ++ (List.insertionSort pairLe (rowPairs c i)).drop (kCut c)) := by
    rw [List.take_append_drop]
    exact hsorted
  exact (List.pairwise_append.mp hpw).2.2 p hp q hqd

/-- C5 counterexample: with one depot and two clients forming a single
mutually exclusive group (num_k = 60, the NIF default), client 2 appears in
the neighbour list of its fellow group member client 1 — the FINITE_MAX
proximity orders group members last but does not exclude them when the top-k
cut is not filled by other clients. -/
theorem group_member_enters_neighbour_list :
    (2 : Nat) ∈ neighboursOf ⟨1, 2, fun _ _ => 0, [⟨[1, 2], true⟩], 60, true⟩ 1 ∧
      inSameExclusiveGroup ⟨1, 2, fun _ _ => 0, [⟨[1, 2], true⟩], 60, true⟩ 1 2 := by
  decide

/-- C5 (amended): every client's neighbour list has exactly
`min(num_k, num_clients - 1)` entries, which are the lexicographically
(proximity, index) smallest entries of that client's row; mutually exclusive
group members are assigned the highest finite proximity, so a same-group
member appears only when every non-group client of the row is also selected
(it is not unconditionally excluded). -/
theorem build_neighbours_row_selection (c : NbConfig) (i : Nat)
    (hi1 : c.numDepots ≤ i) (hi2 : i < numLocs c) :
    (neighboursOf c i).length = min c.numK (c.numClients - 1) ∧
    (∀ p ∈ selectedRow c i, ∀ q ∈ rowPairs c i, q.2 ∉ neighboursOf c i → pairLe p q) ∧
    (∀ j, j ∈ neighboursOf c i → inSameExclusiveGroup c i j →
      ∀ j2, c.numDepots ≤ j2 → j2 < numLocs c → j2 ≠ i →
        ¬ inSameExclusiveGroup c i j2 → j2 ∈ neighboursOf c i) := by
  refine ⟨?_, selectedRow_le_rest c i, ?_⟩
  · unfold neighboursOf selectedRow
    rw [List.length_map, List.length_take,
      (List.perm_insertionSort pairLe (rowPairs c i)).length_eq,
      rowPairs_length c i hi1 hi2]
    unfold kCut
    omega
  · intro j hj hgrp j2 hj21 hj22 hj23 hngrp
    by_contra hnot
    rcases List.mem_map.mp hj with ⟨p, hpsel, hp2⟩
    have hprow : p ∈ rowPairs c i :=
      (List.perm_insertionSort pairLe (rowPairs c i)).subset (List.mem_of_mem_take hpsel)
    obtain ⟨hpshape, hpd, hpl, hpne⟩ := mem_rowPairs hprow
    have hiJ : p.2 = j := hp2
    have hpfmax : p.1 = Prox.fmax := by
      conv_lhs => rw [hpshape]
      simp only
      unfold finalProx groupAdjusted
      rw [if_neg (by omega), if_pos (hiJ ▸ hgrp)]
    have hq : (finalProx c i j2, j2) ∈ rowPairs c i := rowPairs_mem_of c i j2 hj21 hj22 hj23
    have hqfin : ∃ v, finalProx c i j2 = Prox.fin v := by
      unfold finalProx groupAdjusted
      rw [if_neg (by omega), if_neg hngrp]
      exact ⟨_, rfl⟩
    have hple := selectedRow_le_rest c i p hpsel (finalProx c i j2, j2) hq hnot
    rcases hqfin with ⟨v, hv⟩
    rcases hple with hlt | ⟨heq, _⟩
    · rw [hpfmax, hv] at hlt
      exact hlt
    · rw [hpfmax, hv] at heq
      exact Prox.noConfusion heq

/-- Witness for C5 at one depot, three clients, num_k = 2. -/
theorem build_neighbours_row_selection_witness :
    (1 : Nat) ≤ 1 ∧ 1 < numLocs ⟨1, 3, fun _ _ => 0, [], 2, true⟩ ∧
      (neighboursOf ⟨1, 3, fun _ _ => 0, [], 2, true⟩ 1).length = min 2 (3 - 1) := by
  refine ⟨le_refl 1, by decide, ?_⟩
  exact (build_neighbours_row_selection ⟨1, 3, fun _ _ => 0, [], 2, true⟩ 1
    (by decide) (by decide)).1

/-- Witness for C9 at one depot (0,0) and one client (3,4). -/
theorem create_problem_data_euclidean_default_witness :
    (create_problem_data_matrices ⟨[(0, 0)], [(3, 4)]⟩ [] []).1.length = 1 ∧
      (create_problem_data_matrices ⟨[(0, 0)], [(3, 4)]⟩ [] []).1.headD (fun _ _ => 0) 0 0 = 0 ∧
      0 ≤ (create_problem_data_matrices ⟨[(0, 0)], [(3, 4)]⟩ [] []).1.headD (fun _ _ => 0) 0 1 := by
  have h := create_problem_data_euclidean_default ⟨[(0, 0)], [(3, 4)]⟩ [] [] rfl rfl
  exact ⟨h.1, h.2.2.2.1 0, (h.2.2.2.2 0 1).1⟩

theorem sameGroup_symm {c : NbConfig} {i j : Nat} (h : inSameExclusiveGroup c i j) :
    inSameExclusiveGroup c j i := by
  rcases h with ⟨g, hg, hme, hi, hj, hne⟩
  exact ⟨g, hg, hme, hj, hi, fun he => hne he.symm⟩

/-- C6 counterexample: a symmetric proximity matrix does not make neighbour
membership symmetric.  One depot, three clients, k = 1, symmetric proximities
p(1,2)=1, p(1,3)=5, p(2,3)=2: client 2 is the sole neighbour of client 3, but
client 3 is not a neighbour of client 2 (client 1 is closer), so
`j ∈ neighbours[i] ↔ i ∈ neighbours[j]` fails at i = 3, j = 2. -/
theorem neighbour_membership_not_symmetric :
    (⟨1, 3, fun i j =>
        if (i = 1 ∧ j = 2) ∨ (i = 2 ∧ j = 1) then 1
        else if (i = 1 ∧ j = 3) ∨ (i = 3 ∧ j = 1) then 5
        else if (i = 2 ∧ j = 3) ∨ (i = 3 ∧ j = 2) then 2
        else 0, [], 1, true⟩ : NbConfig).symmetric = true ∧
    (2 : Nat) ∈ neighboursOf ⟨1, 3, fun i j =>
        if (i = 1 ∧ j = 2) ∨ (i = 2 ∧ j = 1) then 1
        else if (i = 1 ∧ j = 3) ∨ (i = 3 ∧ j = 1) then 5
        else if (i = 2 ∧ j = 3) ∨ (i = 3 ∧ j = 2) then 2
        else 0, [], 1, true⟩ 3 ∧
    (3 : Nat) ∉ neighboursOf ⟨1, 3, fun i j =>
        if (i = 1 ∧ j = 2) ∨ (i = 2 ∧ j = 1) then 1
        else if (i = 1 ∧ j = 3) ∨ (i = 3 ∧ j = 1) then 5
        else if (i = 2 ∧ j = 3) ∨ (i = 3 ∧ j = 2) then 2
        else 0, [], 1, true⟩ 2 := by
  decide

/-- C6 (amended): with symmetric=true the proximity matrix actually used for
selection is symmetric — `finalProx(i,j) = finalProx(j,i)` for all pairs — and
whenever the cut is full (`num_k ≥ num_clients - 1`) membership is mutual;
per-row top-k truncation may break mutual membership below the full cut. -/
theorem build_neighbours_symmetric_proximity (c : NbConfig) (hs : c.symmetric = true) :
    (∀ i j, finalProx c i j = finalProx c j i) ∧
    (∀ i j, c.numDepots ≤ i → i < numLocs c → c.numDepots ≤ j → j < numLocs c →
      i ≠ j → c.numClients - 1 ≤ c.numK →
      j ∈ neighboursOf c i ∧ i ∈ neighboursOf c j) := by
  constructor
  · intro i j
    unfold finalProx
    by_cases h1 : i = j ∨ i < c.numDepots ∨ j < c.numDepots
    · rw [if_pos h1, if_pos (by omega)]
    · rw [if_neg h1, if_neg (by omega)]
      unfold groupAdjusted
      by_cases h2 : inSameExclusiveGroup c i j
      · rw [if_pos h2, if_pos (sameGroup_symm h2)]
      · rw [if_neg h2, if_neg (fun hc => h2 (sameGroup_symm hc))]
        unfold symmetrized
        rw [hs, if_pos rfl, if_pos rfl, min_comm]
  · intro i j hi1 hi2 hj1 hj2 hne hk
    have hmem : ∀ a b, c.numDepots ≤ a → a < numLocs c → c.numDepots ≤ b →
        b < numLocs c → a ≠ b → b ∈ neighboursOf c a := by
      intro a b ha1 ha2 hb1 hb2 hab
      unfold neighboursOf selectedRow
      have hlen : (List.insertionSort pairLe (rowPairs c a)).length = c.numClients - 1 := by
        rw [(List.perm_insertionSort pairLe (rowPairs c a)).length_eq,
          rowPairs_length c a ha1 ha2]
      have htake : (List.insertionSort pairLe (rowPairs c a)).take (kCut c)
          = List.insertionSort pairLe (rowPairs c a) := by
        apply List.take_of_length_le
        rw [hlen]
        unfold kCut
        omega
      rw [htake]
      refine List.mem_map.mpr ⟨(finalProx c a b, b), ?_, rfl⟩
      exact (List.perm_insertionSort pairLe (rowPairs c a)).mem_iff.mpr
        (rowPairs_mem_of c a b hb1 hb2 (fun h => hab h.symm))
    exact ⟨hmem i j hi1 hi2 hj1 hj2 hne,
      hmem j i hj1 hj2 hi1 hi2 (fun h => hne h.symm)⟩

/-- Witness for C6 (amended) at one depot, two clients. -/
theorem build_neighbours_symmetric_proximity_witness :
    (⟨1, 2, fun _ _ => 0, [], 60, true⟩ : NbConfig).symmetric = true ∧
      finalProx ⟨1, 2, fun _ _ => 0, [], 60, true⟩ 1 2
        = finalProx ⟨1, 2, fun _ _ => 0, [], 60, true⟩ 2 1 ∧
      (2 : Nat) ∈ neighboursOf ⟨1, 2, fun _ _ => 0, [], 60, true⟩ 1 := by
  have h := build_neighbours_symmetric_proximity ⟨1, 2, fun _ _ => 0, [], 60, true⟩ rfl
  exact ⟨rfl, h.1 1 2,
    (h.2 1 2 (by decide) (by decide) (by decide) (by decide) (by decide) (by decide)).1⟩

-- ---------------------------------------------------------------------------
-- Problem data model (shared by the Solution/LocalSearch developments)
-- ---------------------------------------------------------------------------

/-- Client attributes (ProblemData::Client, spec section 3). -/
structure Client where
  delivery : List Int
  pickup : List Int
  serviceDuration : Int
  twEarly : Int
  twLate : Int
  prize : Int
  required : Bool
  group : Option Nat
deriving DecidableEq

/-- Depot attributes (ProblemData::Depot, spec section 3). -/
structure Depot where
  serviceDuration : Int
  reloadCost : Int
deriving DecidableEq

/-- Vehicle-type attributes (ProblemData::VehicleType, spec section 3).
`vehName = ""` models a null/empty vehicle name. -/
structure VehicleType where
  numAvailable : Nat
  capacity : List Int
  startDepot : Nat
  endDepot : Nat
  fixedCost : Int
  twEarly : Int
  twLate : Int
  shiftDuration : Int
  maxDistance : Int
  unitDistanceCost : Int
  unitDurationCost : Int
  profile : Nat
  reloadDepots : List Nat
  maxReloads : Nat
  vehName : String
deriving DecidableEq

/-- The immutable problem instance, restricted to the fields the verified
operations read. -/
structure ProblemData where
  depots : List Depot
  clients : List Client
  vehicleTypes : List VehicleType
  distMats : List (Nat → Nat → Int)
  durMats : List (Nat → Nat → Int)
  sameVehicleGroups : List (List Nat)
  numLoadDims : Nat

def ProblemData.numDepots (pd : ProblemData) : Nat := pd.depots.length

def defaultVT : VehicleType := ⟨0, [], 0, 0, 0, 0, 0, 0, 0, 0, 0, 0, [], 0, ""⟩

def ProblemData.vehTypeAt (pd : ProblemData) (t : Nat) : VehicleType :=
  pd.vehicleTypes.getD t defaultVT

def defaultClient : Client := ⟨[], [], 0, 0, 0, 0, false, none⟩

/-- `data.location(loc)` for a client location (locations `numDepots ≤ loc`). -/
def ProblemData.clientAt (pd : ProblemData) (loc : Nat) : Client :=
  pd.clients.getD (loc - pd.numDepots) defaultClient

/-- `data.location(loc)` for a depot location (`loc < numDepots`). -/
def ProblemData.depotAt (pd : ProblemData) (loc : Nat) : Depot :=
  pd.depots.getD loc ⟨0, 0⟩

def ProblemData.distMat (pd : ProblemData) (profile : Nat) : Nat → Nat → Int :=
  pd.distMats.getD profile (fun _ _ => 0)

def ProblemData.durMat (pd : ProblemData) (profile : Nat) : Nat → Nat → Int :=
  pd.durMats.getD profile (fun _ _ => 0)

-- ---------------------------------------------------------------------------
-- Working/immutable solution conversion (Solution::load / Solution::unload,
-- Solution.cpp:29-134)
-- ---------------------------------------------------------------------------

/-- An immutable trip as `unload` constructs it (Solution.cpp:119-123): the
client visits plus the bounding depots. -/
structure ITrip where
  visits : List Nat
  startDepot : Nat
  endDepot : Nat
deriving DecidableEq

/-- An immutable route: trips plus the vehicle type. -/
structure IRoute where
  trips : List ITrip
  vehType : Nat
deriving DecidableEq

/-- A working route: the vehicle-type index and the interior node sequence
(locations strictly between the start and end depot; an interior entry below
`numDepots` is a reload-depot trip delimiter). -/
structure WRoute where
  vehType : Nat
  interior : List Nat
deriving DecidableEq

/-- The working solution's route slots, grouped by vehicle type; the C++
`routes` vector stores the slots of each vehicle type contiguously
(Solution.cpp:20-26), so slot order is the flattening of the blocks. -/
structure WSol7 where
  blocks : List (List WRoute)
deriving DecidableEq

/-- The trip-splitting walk of `unload` (Solution.cpp:108-127): `acc` carries
the clients of the current trip (reversed), `prevDepot` the depot that opened
it; a location below `numDepots` closes the trip.  The argument list is the
route's node sequence after the start depot, i.e. `interior ++ [endDepot]`. -/
def splitTrips (nd : Nat) (prevDepot : Nat) (acc : List Nat) : List Nat → List ITrip
  | [] => []
  | x :: rest =>
    if x < nd then ⟨acc.reverse, prevDepot, x⟩ :: splitTrips nd x [] rest
    else splitTrips nd prevDepot (x :: acc) rest

/-- unload (Solution.cpp:90): each non-empty route, in slot order, becomes an
immutable route whose trips are split at depot nodes. -/
def unload7 (pd : ProblemData) (s : WSol7) : List IRoute :=
  (s.blocks.flatten.filter (fun r => !r.interior.isEmpty)).map (fun r =>
    ⟨splitTrips pd.numDepots (pd.vehTypeAt r.vehType).startDepot []
        (r.interior ++ [(pd.vehTypeAt r.vehType).endDepot]), r.vehType⟩)

/-- The delimiter-plus-visits flattening of a trip list. -/
def rebuildTail : List ITrip → List Nat
  | [] => []
  | t :: rest => t.startDepot :: (t.visits ++ rebuildTail rest)

/-- The interior sequence `load` rebuilds from a solution route
(Solution.cpp:59-71): the first trip contributes its clients, every later
trip a delimiter node at its start depot followed by its clients. -/
def rebuildInterior : List ITrip → List Nat
  | [] => []
  | t :: rest => t.visits ++ rebuildTail rest

/-- load (Solution.cpp:29-88): for each vehicle type, the solution's routes of
that type fill the type's first slots in order (a slot whose contents already
match is reused unchanged, which yields the same contents); the remaining
slots of the type are cleared. -/
def load7 (pd : ProblemData) (sol : List IRoute) : WSol7 :=
  ⟨(List.range pd.vehicleTypes.length).map (fun t =>
      let assigned := (sol.filter (fun r => r.vehType = t)).map
        (fun r => (⟨t, rebuildInterior r.trips⟩ : WRoute))
      assigned ++ List.replicate ((pd.vehTypeAt t).numAvailable - assigned.length)
        (⟨t, []⟩ : WRoute))⟩

theorem rebuildTail_splitTrips (nd ed : Nat) (hed : ed < nd) :
    ∀ (xs : List Nat) (sd : Nat) (acc : List Nat),
      rebuildTail (splitTrips nd sd acc (xs ++ [ed])) = sd :: (acc.reverse ++ xs) := by
  intro xs
  induction xs with
  | nil =>
    intro sd acc
    simp only [List.nil_append, splitTrips, if_pos hed]
    simp [rebuildTail, splitTrips]
  | cons x xs ih =>
    intro sd acc
    simp only [List.cons_append, splitTrips]
    by_cases hx : x < nd
    · rw [if_pos hx]
      simp only [rebuildTail, List.append_eq]
      rw [ih x []]
      simp
    · rw [if_neg hx]
      simp only [List.append_eq]
      rw [ih sd (x :: acc)]
      simp

theorem rebuildInterior_eq_tail (ts : List ITrip) :
    rebuildInterior ts = (rebuildTail ts).tail := by
  cases ts <;> rfl

theorem rebuildInterior_splitTrips (nd sd ed : Nat) (hed : ed < nd) (xs : List Nat) :
    rebuildInterior (splitTrips nd sd [] (xs ++ [ed])) = xs := by
  rw [rebuildInterior_eq_tail, rebuildTail_splitTrips nd ed hed xs sd []]
  simp

theorem filter_map_comm {α β : Type} (f : α → β) (p : β → Bool) (l : List α) :
    (l.map f).filter p = (l.filter (fun a => p (f a))).map f := by
  induction l with
  | nil => rfl
  | cons a l ih =>
    by_cases h : p (f a) = true <;> simp [List.filter_cons, h, ih]

theorem map_id_of_mem {α : Type} (f : α → α) (l : List α) (h : ∀ x ∈ l, f x = x) :
    l.map f = l := by
  induction l with
  | nil => rfl
  | cons a l ih =>
    have h1 : f a = a := h a (by simp)
    have h2 : l.map f = l := ih (fun x hx => h x (by simp [hx]))
    rw [List.map_cons, h1, h2]

theorem map_getD_range {α : Type} (l : List α) (d : α) :
    (List.range l.length).map (fun i => l.getD i d) = l := by
  induction l with
  | nil => rfl
  | cons a l ih =>
    rw [List.length_cons, List.range_succ_eq_map, List.map_cons, List.map_map]
    simp only [Function.comp_def, List.getD_cons_zero, List.getD_cons_succ]
    rw [ih]

theorem join_filter_single (t : Nat) (p : WRoute → Bool) :
    ∀ (blocks : List (List WRoute)) (off : Nat),
      (∀ i, ∀ r ∈ blocks.getD i [], r.vehType = off + i) →
      (blocks.flatten).filter (fun r => p r && decide (r.vehType = t))
        = if off ≤ t ∧ t - off < blocks.length then
            (blocks.getD (t - off) []).filter (fun r => p r && decide (r.vehType = t))
          else [] := by
  intro blocks
  induction blocks with
  | nil =>
    intro off htype
    simp
  | cons b rest ih =>
    intro off htype
    have hb : ∀ r ∈ b, r.vehType = off := fun r hr => by
      simpa using htype 0 r hr
    have hrest : ∀ i, ∀ r ∈ rest.getD i [], r.vehType = (off + 1) + i := fun i r hr => by
      have := htype (i + 1) r (by simpa using hr)
      omega
    rw [List.flatten_cons, List.filter_append, ih (off + 1) hrest]
    simp only [List.length_cons]
    by_cases hoff : off = t
    · subst hoff
      rw [if_neg (by omega), if_pos (by omega)]
      simp only [Nat.sub_self, List.getD_cons_zero, List.append_nil]
    · have hbnil : b.filter (fun r => p r && decide (r.vehType = t)) = [] := by
        apply List.filter_eq_nil_iff.mpr
        intro r hr
        simp [hb r hr, hoff]
      rw [hbnil, List.nil_append]
      by_cases hrange : off + 1 ≤ t ∧ t - (off + 1) < rest.length
      · rw [if_pos hrange, if_pos (by omega)]
        have : t - off = (t - (off + 1)) + 1 := by omega
        rw [this, List.getD_cons_succ]
      · rw [if_neg hrange, if_neg (by omega)]

theorem unload7_assigned (pd : ProblemData) (s : WSol7) (t : Nat)
    (hlen : s.blocks.length = pd.vehicleTypes.length)
    (htype : ∀ i, ∀ r ∈ s.blocks.getD i [], r.vehType = i)
    (hend : ∀ u, (pd.vehTypeAt u).endDepot < pd.numDepots)
    (ht : t < pd.vehicleTypes.length) :
    ((unload7 pd s).filter (fun r => r.vehType = t)).map
        (fun r => (⟨t, rebuildInterior r.trips⟩ : WRoute))
      = (s.blocks.getD t []).filter (fun r => !r.interior.isEmpty) := by
  unfold unload7
  rw [filter_map_comm]
  have hfun : (fun a : WRoute => decide
        ((⟨splitTrips pd.numDepots (pd.vehTypeAt a.vehType).startDepot []
            (a.interior ++ [(pd.vehTypeAt a.vehType).endDepot]), a.vehType⟩ : IRoute).vehType = t))
      = (fun a : WRoute => decide (a.vehType = t)) := rfl
  rw [hfun, List.filter_filter]
  have hswap : (s.blocks.flatten).filter
        (fun a => decide (a.vehType = t) && !a.interior.isEmpty)
      = (s.blocks.flatten).filter
        (fun a => !a.interior.isEmpty && decide (a.vehType = t)) := by
    apply List.filter_congr
    intro a _
    exact Bool.and_comm _ _
  rw [hswap]
  have htype0 : ∀ i, ∀ r ∈ s.blocks.getD i [], r.vehType = 0 + i := by
    intro i r hr
    simpa using htype i r hr
  rw [join_filter_single t (fun r => !r.interior.isEmpty) s.blocks 0 htype0]
  rw [if_pos (by omega)]
  have hsame : (s.blocks.getD (t - 0) []).filter
        (fun r => !r.interior.isEmpty && decide (r.vehType = t))
      = (s.blocks.getD t []).filter (fun r => !r.interior.isEmpty) := by
    have h0 : t - 0 = t := by omega
    rw [h0]
    apply List.filter_congr
    intro a ha
    rw [htype t a ha]
    simp
  rw [hsame, List.map_map]
  apply map_id_of_mem
  intro r hr
  have hrb : r ∈ s.blocks.getD t [] := List.mem_of_mem_filter hr
  have hrt : r.vehType = t := htype t r hrb
  simp only [Function.comp]
  rw [rebuildInterior_splitTrips pd.numDepots (pd.vehTypeAt r.vehType).startDepot
    (pd.vehTypeAt r.vehType).endDepot (hend r.vehType) r.interior]
  rw [← hrt]

/-- C7 counterexample: `load(unload(working))` is not the identity: with two
slots of one vehicle type where an empty slot precedes a non-empty one, the
round trip moves the non-empty route to the first slot of its type and
clears the second. -/
theorem load_unload_not_identity :
    load7 ⟨[⟨0, 0⟩], [defaultClient],
        [⟨2, [], 0, 0, 0, 0, 0, 0, 0, 0, 0, 0, [], 0, ""⟩], [], [], [], 0⟩
      (unload7 ⟨[⟨0, 0⟩], [defaultClient],
          [⟨2, [], 0, 0, 0, 0, 0, 0, 0, 0, 0, 0, [], 0, ""⟩], [], [], [], 0⟩
        ⟨[[⟨0, []⟩, ⟨0, [1]⟩]]⟩)
      ≠ ⟨[[⟨0, []⟩, ⟨0, [1]⟩]]⟩ := by
  decide

/-- C7 (amended): `load(unload(working))` compacts each vehicle type's block:
the non-empty routes keep their contents, trip delimiters and relative order
but move to the type's first slots, and the remaining slots are cleared; the
round trip is the identity exactly on states where, within every vehicle
type, all non-empty slots already precede all empty slots. -/
theorem load_unload_roundtrip_compacts (pd : ProblemData) (s : WSol7)
    (hlen : s.blocks.length = pd.vehicleTypes.length)
    (htype : ∀ i, ∀ r ∈ s.blocks.getD i [], r.vehType = i)
    (hend : ∀ u, (pd.vehTypeAt u).endDepot < pd.numDepots) :
    load7 pd (unload7 pd s)
      = ⟨(List.range pd.vehicleTypes.length).map (fun t =>
          (s.blocks.getD t []).filter (fun r => !r.interior.isEmpty)
            ++ List.replicate ((pd.vehTypeAt t).numAvailable
                - ((s.blocks.getD t []).filter (fun r => !r.interior.isEmpty)).length)
              (⟨t, []⟩ : WRoute))⟩ ∧
    ((∀ t, t < pd.vehicleTypes.length →
        (s.blocks.getD t []).length = (pd.vehTypeAt t).numAvailable ∧
        s.blocks.getD t [] = (s.blocks.getD t []).filter (fun r => !r.interior.isEmpty)
          ++ List.replicate ((s.blocks.getD t []).length
              - ((s.blocks.getD t []).filter (fun r => !r.interior.isEmpty)).length)
            (⟨t, []⟩ : WRoute)) →
      load7 pd (unload7 pd s) = s) := by
  have hmain : load7 pd (unload7 pd s)
      = ⟨(List.range pd.vehicleTypes.length).map (fun t =>
          (s.blocks.getD t []).filter (fun r => !r.interior.isEmpty)
            ++ List.replicate ((pd.vehTypeAt t).numAvailable
                - ((s.blocks.getD t []).filter (fun r => !r.interior.isEmpty)).length)
              (⟨t, []⟩ : WRoute))⟩ := by
    unfold load7
    congr 1
    apply List.map_congr_left
    intro t htm
    have ht : t < pd.vehicleTypes.length := List.mem_range.mp htm
    rw [unload7_assigned pd s t hlen htype hend ht]
  refine ⟨hmain, ?_⟩
  intro hcompact
  rw [hmain]
  have hpoint : ∀ t ∈ List.range pd.vehicleTypes.length,
      (s.blocks.getD t []).filter (fun r => !r.interior.isEmpty)
        ++ List.replicate ((pd.vehTypeAt t).numAvailable
            - ((s.blocks.getD t []).filter (fun r => !r.interior.isEmpty)).length)
          (⟨t, []⟩ : WRoute) = s.blocks.getD t [] := by
    intro t htm
    have ht : t < pd.vehicleTypes.length := List.mem_range.mp htm
    obtain ⟨h1, h2⟩ := hcompact t ht
    rw [← h1]
    exact h2.symm
  have hblocks : (List.range pd.vehicleTypes.length).map (fun t =>
        (s.blocks.getD t []).filter (fun r => !r.interior.isEmpty)
          ++ List.replicate ((pd.vehTypeAt t).numAvailable
              - ((s.blocks.getD t []).filter (fun r => !r.interior.isEmpty)).length)
            (⟨t, []⟩ : WRoute))
      = s.blocks := by
    rw [List.map_congr_left hpoint, ← hlen]
    exact map_getD_range s.blocks []
  show (⟨(List.range pd.vehicleTypes.length).map (fun t =>
      (s.blocks.getD t []).filter (fun r => !r.interior.isEmpty)
        ++ List.replicate ((pd.vehTypeAt t).numAvailable
            - ((s.blocks.getD t []).filter (fun r => !r.interior.isEmpty)).length)
          (⟨t, []⟩ : WRoute))⟩ : WSol7) = ⟨s.blocks⟩
  exact congrArg WSol7.mk hblocks

/-- Instance used by the C7 witness: one depot, one client, one vehicle type
with two vehicles. -/
def pdC7 : ProblemData :=
  ⟨[⟨0, 0⟩], [defaultClient], [⟨2, [], 0, 0, 0, 0, 0, 0, 0, 0, 0, 0, [], 0, ""⟩],
    [], [], [], 0⟩

/-- Witness for C7 (amended): on an already-compact state the round trip is
the identity. -/
theorem load_unload_roundtrip_compacts_witness :
    load7 pdC7 (unload7 pdC7 ⟨[[⟨0, [1]⟩, ⟨0, []⟩]]⟩) = ⟨[[⟨0, [1]⟩, ⟨0, []⟩]]⟩ := by
  have htype : ∀ i, ∀ r ∈ (⟨[[⟨0, [1]⟩, ⟨0, []⟩]]⟩ : WSol7).blocks.getD i [], r.vehType = i := by
    intro i r hr
    rcases i with _ | v
    · simp only [List.getD_cons_zero] at hr
      simp at hr
      rcases hr with rfl | rfl <;> rfl
    · rw [List.getD_cons_succ] at hr
      have : (([] : List (List WRoute)).getD v []) = [] := by
        cases v <;> rfl
      rw [this] at hr
      exact absurd hr (List.not_mem_nil r)
  have hend : ∀ u, (pdC7.vehTypeAt u).endDepot < pdC7.numDepots := by
    intro u
    show (pdC7.vehicleTypes.getD u defaultVT).endDepot < pdC7.numDepots
    have hv : pdC7.vehicleTypes = [⟨2, [], 0, 0, 0, 0, 0, 0, 0, 0, 0, 0, [], 0, ""⟩] := rfl
    rw [hv]
    rcases u with _ | v
    · decide
    · rw [List.getD_cons_succ]
      have h0 : (([] : List VehicleType).getD v defaultVT) = defaultVT := by
        cases v <;> rfl
      rw [h0]
      decide
  have h := load_unload_roundtrip_compacts pdC7 ⟨[[⟨0, [1]⟩, ⟨0, []⟩]]⟩ (by decide) htype hend
  refine h.2 ?_
  intro t ht
  have ht0 : t = 0 := by
    have : pdC7.vehicleTypes.length = 1 := by decide
    omega
  subst ht0
  exact ⟨by decide, by decide⟩

-- ---------------------------------------------------------------------------
-- Working route totals and penalised cost.  The Route cache and the cost
-- primitives are not among the three source files; they are modelled from the
-- spec (sections 3, 4.C, 4.D, 4.F) as direct recomputations over the node
-- sequence.
-- ---------------------------------------------------------------------------

/-- The full node sequence of a working route: start depot, interior, end
depot (spec section 3, Route). -/
def WRoute.seq (pd : ProblemData) (r : WRoute) : List Nat :=
  (pd.vehTypeAt r.vehType).startDepot :: (r.interior ++ [(pd.vehTypeAt r.vehType).endDepot])

/-- Modelled from the spec: a depot's time window is `[0, MAX]`. -/
def locTwEarly (pd : ProblemData) (loc : Nat) : Int :=
  if loc < pd.numDepots then 0 else (pd.clientAt loc).twEarly

def locTwLate (pd : ProblemData) (loc : Nat) : Int :=
  if loc < pd.numDepots then MAXI else (pd.clientAt loc).twLate

def locService (pd : ProblemData) (loc : Nat) : Int :=
  if loc < pd.numDepots then (pd.depotAt loc).serviceDuration
  else (pd.clientAt loc).serviceDuration

/-- Sum of matrix entries over consecutive pairs of a path. -/
def pathDistance (m : Nat → Nat → Int) : List Nat → Int
  | [] => 0
  | [_] => 0
  | a :: b :: rest => m a b + pathDistance m (b :: rest)

/-- Modelled from the spec (section 3): route distance is the direct sum over
emitted edges. -/
def WRoute.distance (pd : ProblemData) (r : WRoute) : Int :=
  pathDistance (pd.distMat (pd.vehTypeAt r.vehType).profile) (r.seq pd)

/-- One forward-schedule step (modelled from the spec's DurationSegment
algebra, section 4.C, collapsed to the outward-bound schedule): from the
departure state `(time, warp, prev)`, travel to `loc`, wait for its window,
record time warp if the window closed, then serve. -/
def schedStep (pd : ProblemData) (m : Nat → Nat → Int) :
    Int × Int × Nat → Nat → Int × Int × Nat := fun st loc =>
  let arrive := st.1 + m st.2.2 loc
  let start := max arrive (locTwEarly pd loc)
  (min start (locTwLate pd loc) + locService pd loc,
    st.2.1 + max 0 (start - locTwLate pd loc), loc)

/-- Modelled from the spec: the route schedule starts the shift at the
vehicle's `tw_early`, serves the start depot, visits the interior and the end
depot, and finally accounts the vehicle's own `tw_late`.  Returns the clamped
end time and the total time warp; `end = tw_early + duration - time_warp`
(the identity Solution.cpp:423-424 relies on). -/
def WRoute.schedule (pd : ProblemData) (r : WRoute) : Int × Int :=
  let vt := pd.vehTypeAt r.vehType
  let m := pd.durMat vt.profile
  let fin := (r.interior ++ [vt.endDepot]).foldl (schedStep pd m)
    (vt.twEarly + locService pd vt.startDepot, 0, vt.startDepot)
  (min fin.1 vt.twLate, fin.2.1 + max 0 (fin.1 - vt.twLate))

def WRoute.timeWarp (pd : ProblemData) (r : WRoute) : Int := (r.schedule pd).2

def WRoute.duration (pd : ProblemData) (r : WRoute) : Int :=
  (r.schedule pd).1 - (pd.vehTypeAt r.vehType).twEarly + (r.schedule pd).2

/-- Split an interior sequence into trips at reload-depot delimiters. -/
def splitOnDepots (nd : Nat) : List Nat → List (List Nat)
  | [] => [[]]
  | x :: rest =>
    if x < nd then [] :: splitOnDepots nd rest
    else
      match splitOnDepots nd rest with
      | [] => [[x]]
      | t :: ts => (x :: t) :: ts

/-- Sum of one load dimension of a selector over a trip's clients. -/
def sumDim (pd : ProblemData) (sel : Client → List Int) (d : Nat) (trip : List Nat) : Int :=
  (trip.map (fun c => (sel (pd.clientAt c)).getD d 0)).sum

/-- Modelled from the spec (LoadSegment, section 4.C): a trip's excess in
dimension `d` is the amount by which the larger of total delivery and total
pickup exceeds the capacity. -/
def tripExcess (pd : ProblemData) (cap : List Int) (d : Nat) (trip : List Nat) : Int :=
  max 0 (max (sumDim pd Client.delivery d trip) (sumDim pd Client.pickup d trip)
    - cap.getD d 0)

def WRoute.excessLoad (pd : ProblemData) (r : WRoute) (d : Nat) : Int :=
  ((splitOnDepots pd.numDepots r.interior).map
    (tripExcess pd (pd.vehTypeAt r.vehType).capacity d)).sum

def WRoute.excessDistance (pd : ProblemData) (r : WRoute) : Int :=
  max 0 (r.distance pd - (pd.vehTypeAt r.vehType).maxDistance)

def WRoute.prizes (pd : ProblemData) (r : WRoute) : Int :=
  ((r.interior.filter (fun l => decide (pd.numDepots ≤ l))).map
    (fun c => (pd.clientAt c).prize)).sum

def WRoute.reloadCosts (pd : ProblemData) (r : WRoute) : Int :=
  ((r.interior.filter (fun l => decide (l < pd.numDepots))).map
    (fun dl => (pd.depotAt dl).reloadCost)).sum

/-- `Route::numTrips()`: one more than the number of reload delimiters. -/
def WRoute.numTrips (pd : ProblemData) (r : WRoute) : Nat :=
  1 + (r.interior.filter (fun l => decide (l < pd.numDepots))).length

/-- `Route::maxTrips() = maxReloads + 1`. -/
def WRoute.maxTrips (pd : ProblemData) (r : WRoute) : Nat :=
  (pd.vehTypeAt r.vehType).maxReloads + 1

/-- The search cost evaluator with integral penalty rates. -/
structure CostEval where
  loadPenalties : List Int
  twPenalty : Int
  distPenalty : Int

/-- Modelled from the spec (section 4.F): the penalised cost of a route.
Empty routes cost nothing (an unused vehicle incurs no fixed cost); overtime
is not modelled (no claim exercises `max_overtime`). -/
def penalisedCost (pd : ProblemData) (ce : CostEval) (r : WRoute) : Int :=
  if r.interior.isEmpty then 0
  else
    (pd.vehTypeAt r.vehType).fixedCost
      + (pd.vehTypeAt r.vehType).unitDistanceCost * r.distance pd
      + (pd.vehTypeAt r.vehType).unitDurationCost * r.duration pd
      + ((List.range pd.numLoadDims).map
          (fun d => ce.loadPenalties.getD d 0 * r.excessLoad pd d)).sum
      + ce.twPenalty * r.timeWarp pd + ce.distPenalty * r.excessDistance pd
      - r.prizes pd + r.reloadCosts pd

/-- The flat working solution: route slots in vehicle-type-contiguous order. -/
structure WSol where
  routes : List WRoute
deriving DecidableEq

def routeAt (s : WSol) (i : Nat) : WRoute := s.routes.getD i ⟨0, []⟩

/-- `penalised_cost(solution)`: the sum over all route slots. -/
def totalPenalisedCost (pd : ProblemData) (ce : CostEval) (s : WSol) : Int :=
  (s.routes.map (penalisedCost pd ce)).sum

/-- Index of the first occurrence of a value. -/
def idxOf (c : Nat) : List Nat → Option Nat
  | [] => none
  | x :: rest => if x = c then some 0 else (idxOf c rest).map (fun k => k + 1)

theorem idxOf_some {c : Nat} : ∀ {l : List Nat} {k : Nat},
    idxOf c l = some k → k < l.length ∧ l.getD k 0 = c := by
  intro l
  induction l with
  | nil => intro k h; cases h
  | cons x rest ih =>
    intro k h
    unfold idxOf at h
    by_cases hx : x = c
    · rw [if_pos hx] at h
      cases h
      exact ⟨by simp, hx⟩
    · rw [if_neg hx] at h
      rcases Option.map_eq_some'.mp h with ⟨k0, hk0, rfl⟩
      obtain ⟨h1, h2⟩ := ih hk0
      exact ⟨by simpa using h1, by simpa using h2⟩

theorem idxOf_none {c : Nat} : ∀ {l : List Nat}, idxOf c l = none → c ∉ l := by
  intro l
  induction l with
  | nil => intro _ h; cases h
  | cons x rest ih =>
    intro h hmem
    unfold idxOf at h
    by_cases hx : x = c
    · rw [if_pos hx] at h; cases h
    · rw [if_neg hx] at h
      rcases List.mem_cons.mp hmem with rfl | hmem2
      · exact hx rfl
      · exact ih (Option.map_eq_none'.mp h) hmem2

/-- `nodes[c].route()` and the node's position: the slot of the route holding
client `c` and the node's sequence index (interior index + 1); `none` when the
client is not in the solution.  The per-node back-pointers of the C++ arena
are modelled by searching the routes, valid under the working-solution
invariant that a client sits in at most one route. -/
def findClientAux (c : Nat) : List WRoute → Option (Nat × Nat)
  | [] => none
  | r :: rest =>
    match idxOf c r.interior with
    | some k => some (0, k + 1)
    | none => (findClientAux c rest).map (fun q => (q.1 + 1, q.2))

def findClient (s : WSol) (c : Nat) : Option (Nat × Nat) := findClientAux c s.routes

theorem findClientAux_some {c : Nat} : ∀ {l : List WRoute} {i p : Nat},
    findClientAux c l = some (i, p) →
      i < l.length ∧ 1 ≤ p ∧ p - 1 < (l.getD i ⟨0, []⟩).interior.length ∧
        (l.getD i ⟨0, []⟩).interior.getD (p - 1) 0 = c := by
  intro l
  induction l with
  | nil => intro i p h; cases h
  | cons r rest ih =>
    intro i p h
    unfold findClientAux at h
    rcases he : idxOf c r.interior with _ | k
    · rw [he] at h
      simp only at h
      rcases Option.map_eq_some'.mp h with ⟨⟨i0, p0⟩, hq, heq⟩
      cases heq
      obtain ⟨h1, h2, h3, h4⟩ := ih hq
      exact ⟨by simpa using h1, h2, by simpa using h3, by simpa using h4⟩
    · rw [he] at h
      simp only at h
      cases h
      obtain ⟨h1, h2⟩ := idxOf_some he
      exact ⟨by simp, by omega, by simpa using h1, by simpa using h2⟩

theorem findClientAux_none {c : Nat} : ∀ {l : List WRoute},
    findClientAux c l = none → ∀ r ∈ l, c ∉ r.interior := by
  intro l
  induction l with
  | nil => intro _ r hr; cases hr
  | cons r0 rest ih =>
    intro h r hr
    unfold findClientAux at h
    rcases he : idxOf c r0.interior with _ | k
    · rw [he] at h
      simp only [Option.map_eq_none'] at h
      rcases List.mem_cons.mp hr with rfl | hr2
      · exact idxOf_none he
      · exact ih h r hr2
    · rw [he] at h
      simp at h

/-- Insert an element at a position of a list (the effect of
`Route::insert(idx, node)` on the interior sequence). -/
def listInsertAt {α : Type} : Nat → α → List α → List α
  | 0, x, l => x :: l
  | _ + 1, x, [] => [x]
  | p + 1, x, a :: rest => a :: listInsertAt p x rest

theorem listInsertAt_eq_take_drop {α : Type} (x : α) :
    ∀ (l : List α) (p : Nat), p ≤ l.length →
      listInsertAt p x l = l.take p ++ x :: l.drop p := by
  intro l
  induction l with
  | nil =>
    intro p hp
    have : p = 0 := by simpa using hp
    subst this
    rfl
  | cons a rest ih =>
    intro p hp
    cases p with
    | zero => rfl
    | succ p0 =>
      simp only [listInsertAt, List.take_succ_cons, List.drop_succ_cons, List.cons_append]
      rw [ih p0 (by simpa using hp)]

theorem mem_listInsertAt {α : Type} (x : α) :
    ∀ (l : List α) (p : Nat), x ∈ listInsertAt p x l := by
  intro l
  induction l with
  | nil => intro p; cases p <;> simp [listInsertAt]
  | cons a rest ih =>
    intro p
    cases p with
    | zero => simp [listInsertAt]
    | succ p0 =>
      simp only [listInsertAt, List.mem_cons]
      exact Or.inr (ih p0)

/-- Replace the route in slot `i` (no-op when `i` is out of range, like
`std::vector` indexing under the caller's validity obligations). -/
def updateRoute (s : WSol) (i : Nat) (f : WRoute → WRoute) : WSol :=
  ⟨s.routes.set i (f (routeAt s i))⟩

/-- `route->insert(p+1, U)` through the solution: insert client `U` at
interior index `pos` of route `i`. -/
def insertClientAt (s : WSol) (i pos : Nat) (U : Nat) : WSol :=
  updateRoute s i (fun r => ⟨r.vehType, listInsertAt pos U r.interior⟩)

/-- `route->remove(p)`: remove the node at sequence index `p` (interior index
`p - 1`) of route `i`. -/
def removeAt (s : WSol) (i p : Nat) : WSol :=
  updateRoute s i (fun r => ⟨r.vehType, r.interior.eraseIdx (p - 1)⟩)

/-- `route->remove(p); route->insert(p, U)`: in-place replacement. -/
def inplaceSet (s : WSol) (i p : Nat) (U : Nat) : WSol :=
  updateRoute s i (fun r => ⟨r.vehType, r.interior.set (p - 1) U⟩)

/-- Modelled from the spec (section 4.H: deltas are exact penalised-cost
differences; primitives.cpp is not among the sources): `insertCost(U, V)` is
the change in penalised route cost from inserting `U` immediately after the
node at sequence index `pos` of route `i`, i.e. at interior index `pos`. -/
def insertCost (pd : ProblemData) (ce : CostEval) (s : WSol) (U : Nat) (i pos : Nat) : Int :=
  penalisedCost pd ce ⟨(routeAt s i).vehType, listInsertAt pos U (routeAt s i).interior⟩
    - penalisedCost pd ce (routeAt s i)

/-- Modelled from the spec: `removeCost(U)` for the node at sequence index
`p` of route `i`. -/
def removeCost (pd : ProblemData) (ce : CostEval) (s : WSol) (i p : Nat) : Int :=
  penalisedCost pd ce ⟨(routeAt s i).vehType, (routeAt s i).interior.eraseIdx (p - 1)⟩
    - penalisedCost pd ce (routeAt s i)

/-- Modelled from the spec: `inplaceCost(U, V)` replaces the node at sequence
index `p` of route `i` by `U`. -/
def inplaceCost (pd : ProblemData) (ce : CostEval) (s : WSol) (U : Nat) (i p : Nat) : Int :=
  penalisedCost pd ce ⟨(routeAt s i).vehType, (routeAt s i).interior.set (p - 1) U⟩
    - penalisedCost pd ce (routeAt s i)

theorem sum_map_set {α : Type} (f : α → Int) :
    ∀ (l : List α) (i : Nat) (x : α), i < l.length →
      ((l.set i x).map f).sum = (l.map f).sum - f (l.getD i x) + f x := by
  intro l
  induction l with
  | nil => intro i x h; simp at h
  | cons a rest ih =>
    intro i x h
    cases i with
    | zero =>
      simp only [List.set_cons_zero, List.map_cons, List.sum_cons, List.getD_cons_zero]
      ring
    | succ i0 =>
      simp only [List.set_cons_succ, List.map_cons, List.sum_cons, List.getD_cons_succ]
      rw [ih i0 x (by simpa using h)]
      ring

/-- The total-cost effect of an in-place route update: out-of-range updates
are no-ops. -/
theorem total_updateRoute (pd : ProblemData) (ce : CostEval) (s : WSol) (i : Nat)
    (f : WRoute → WRoute) :
    totalPenalisedCost pd ce (updateRoute s i f)
      = totalPenalisedCost pd ce s
        + (if i < s.routes.length then
            penalisedCost pd ce (f (routeAt s i)) - penalisedCost pd ce (routeAt s i)
          else 0) := by
  unfold totalPenalisedCost updateRoute
  by_cases h : i < s.routes.length
  · rw [if_pos h, sum_map_set (penalisedCost pd ce) s.routes i (f (routeAt s i)) h]
    have hgd : s.routes.getD i (f (routeAt s i)) = routeAt s i := by
      unfold routeAt
      rw [List.getD_eq_getElem?_getD, List.getD_eq_getElem?_getD,
        List.getElem?_eq_getElem h]
      rfl
    rw [hgd]
    ring
  · rw [if_neg h, List.set_eq_of_length_le (by omega)]
    ring

-- ---------------------------------------------------------------------------
-- Solution::insert (Solution.cpp:136-488)
-- ---------------------------------------------------------------------------

/-- The inner member walk of the same-vehicle scan (Solution.cpp:164-177):
the route of the first routed member other than `U`. -/
def firstRoutedOther (s : WSol) (U : Nat) : List Nat → Option Nat
  | [] => none
  | c :: rest =>
    if c = U then firstRoutedOther s U rest
    else
      match findClient s c with
      | some q => some q.1
      | none => firstRoutedOther s U rest

/-- The same-vehicle group scan of Solution::insert (Solution.cpp:143-181):
for the first group containing `U` that has another routed member, that
member's route index. -/
def requiredRouteScan (s : WSol) (U : Nat) : List (List Nat) → Option Nat
  | [] => none
  | g :: rest =>
    if U ∈ g then
      match firstRoutedOther s U g with
      | some i => some i
      | none => requiredRouteScan s U rest
    else requiredRouteScan s U rest

/-- isCompatibleRoute (Solution.cpp:183-201): the required route itself, or a
route whose vehicle name equals the required route's non-empty name. -/
def isCompatibleRoute (pd : ProblemData) (s : WSol) (reqR : Option Nat) (i : Nat) : Bool :=
  match reqR with
  | none => true
  | some rr =>
    if i = rr then true
    else
      decide ((pd.vehTypeAt (routeAt s rr).vehType).vehName ≠ ""
        ∧ (pd.vehTypeAt (routeAt s i).vehType).vehName ≠ ""
        ∧ (pd.vehTypeAt (routeAt s rr).vehType).vehName
            = (pd.vehTypeAt (routeAt s i).vehType).vehName)

/-- The seed of the best-insertion scan (Solution.cpp:206-217): the first
compatible route, with insertion after its start depot. -/
def seedScan (pd : ProblemData) (ce : CostEval) (s : WSol) (U : Nat)
    (reqR : Option Nat) : List Nat → Option ((Nat × Nat) × Int)
  | [] => none
  | i :: rest =>
    if isCompatibleRoute pd s reqR i then some ((i, 0), insertCost pd ce s U i 0)
    else seedScan pd ce s U reqR rest

/-- The neighbour pass (Solution.cpp:219-232): insertion after each routed,
compatible neighbour, keeping the strictly best. -/
def nbScan (pd : ProblemData) (ce : CostEval) (s : WSol) (U : Nat) (reqR : Option Nat) :
    List Nat → (Nat × Nat) × Int → (Nat × Nat) × Int
  | [], st => st
  | v :: rest, st =>
    match findClient s v with
    | none => nbScan pd ce s U reqR rest st
    | some (rv, pv) =>
      if isCompatibleRoute pd s reqR rv then
        if insertCost pd ce s U rv pv < st.2 then
          nbScan pd ce s U reqR rest ((rv, pv), insertCost pd ce s U rv pv)
        else nbScan pd ce s U reqR rest st
      else nbScan pd ce s U reqR rest st

/-- One vehicle type's slot walk (Solution.cpp:239-256): skip incompatible
slots and the slot already holding the best position; evaluate insertion
after the start depot; on improvement into an empty route, stop. -/
def slotScan (pd : ProblemData) (ce : CostEval) (s : WSol) (U : Nat) (reqR : Option Nat) :
    List Nat → (Nat × Nat) × Int → (Nat × Nat) × Int
  | [], st => st
  | j :: rest, st =>
    if ¬ isCompatibleRoute pd s reqR j = true then slotScan pd ce s U reqR rest st
    else if ¬ (routeAt s j).interior.isEmpty = true ∧ st.1.1 = j then
      slotScan pd ce s U reqR rest st
    else if insertCost pd ce s U j 0 < st.2 then
      if (routeAt s j).interior.isEmpty = true then ((j, 0), insertCost pd ce s U j 0)
      else slotScan pd ce s U reqR rest ((j, 0), insertCost pd ce s U j 0)
    else slotScan pd ce s U reqR rest st

/-- The randomised vehicle-type pass (Solution.cpp:234-257). -/
def vehTypeScan (pd : ProblemData) (ce : CostEval) (s : WSol) (U : Nat) (reqR : Option Nat) :
    List (Nat × Nat) → (Nat × Nat) × Int → (Nat × Nat) × Int
  | [], st => st
  | (t, off) :: rest, st =>
    vehTypeScan pd ce s U reqR rest
      (slotScan pd ce s U reqR
        ((List.range (pd.vehTypeAt t).numAvailable).map (fun v => off + v)) st)

/-- The full best-standard-insertion scan of Solution::insert: `none` exactly
when no compatible route exists. -/
def insertScanState (pd : ProblemData) (ce : CostEval) (s : WSol) (U : Nat)
    (nbs : List Nat) (vto : List (Nat × Nat)) : Option ((Nat × Nat) × Int) :=
  match seedScan pd ce s U (requiredRouteScan s U pd.sameVehicleGroups)
      (List.range s.routes.length) with
  | none => none
  | some st0 =>
    some (vehTypeScan pd ce s U (requiredRouteScan s U pd.sameVehicleGroups) vto
      (nbScan pd ce s U (requiredRouteScan s U pd.sameVehicleGroups) nbs st0))

/-- canUseMultiTrip (Solution.cpp:270-271). -/
def canUseMultiTripB (pd : ProblemData) (s : WSol) (i : Nat) : Bool :=
  decide ((pd.vehTypeAt (routeAt s i).vehType).reloadDepots ≠ [])
    && decide ((routeAt s i).numTrips pd < (routeAt s i).maxTrips pd)

/-- hasPrize (Solution.cpp:273-277): only client locations can have one. -/
def hasPrizeB (pd : ProblemData) (U : Nat) : Bool :=
  decide (pd.numDepots ≤ U) && decide (0 < (pd.clientAt U).prize)

/-- clientFitsAlone (Solution.cpp:279-295), checked against the vehicle type
of the best-insertion route; initialised true and only refined for clients. -/
def clientFitsAloneB (pd : ProblemData) (s : WSol) (U : Nat) (i : Nat) : Bool :=
  if pd.numDepots ≤ U then
    (List.range (min pd.numLoadDims (pd.vehTypeAt (routeAt s i).vehType).capacity.length)).all
      (fun d => decide (max 0 (max ((pd.clientAt U).delivery.getD d 0)
          ((pd.clientAt U).pickup.getD d 0))
        ≤ (pd.vehTypeAt (routeAt s i).vehType).capacity.getD d 0))
  else true

/-- The backward walk for the current trip's start (Solution.cpp:313-322):
from sequence index `maxIdx` down to 1, stop after the first reload
delimiter; default 1. -/
def tripStartScan (nd : Nat) (interior : List Nat) : Nat → Nat
  | 0 => 1
  | k + 1 => if interior.getD k 0 < nd then k + 2 else tripStartScan nd interior k

/-- wouldExceedCapacity (Solution.cpp:259-359): would inserting `U` at the
best position overload the current trip in some load dimension? -/
def wouldExceedCapacityB (pd : ProblemData) (s : WSol) (U : Nat) (ua : Nat × Nat) : Bool :=
  if 0 < pd.numLoadDims ∧ (pd.vehTypeAt (routeAt s ua.1).vehType).capacity ≠ []
      ∧ canUseMultiTripB pd s ua.1 = true ∧ pd.numDepots ≤ U then
    (List.range (min pd.numLoadDims (pd.vehTypeAt (routeAt s ua.1).vehType).capacity.length)).any
      (fun d =>
        let interior := (routeAt s ua.1).interior
        let lastClientIdx := if 2 < interior.length + 2 then interior.length else 0
        let maxIdx := min ua.2 lastClientIdx
        let tripStart := tripStartScan pd.numDepots interior maxIdx
        let tripSum := fun (sel : Client → List Int) =>
          ((List.range' tripStart (maxIdx + 1 - tripStart)).map (fun k =>
            if pd.numDepots ≤ interior.getD (k - 1) 0 then
              (sel (pd.clientAt (interior.getD (k - 1) 0))).getD d 0
            else 0)).sum
        decide ((pd.vehTypeAt (routeAt s ua.1).vehType).capacity.getD d 0
          < max (tripSum Client.delivery + (pd.clientAt U).delivery.getD d 0)
              (tripSum Client.pickup + (pd.clientAt U).pickup.getD d 0)))
  else false

/-- One route's multi-trip insertion candidate (Solution.cpp:376-452): all
feasibility checks, and the candidate cost
`round-trip distance + reload_cost - prize`. -/
def multiTripCandidate (pd : ProblemData) (s : WSol) (U : Nat) (i : Nat) : Option Int :=
  let r := routeAt s i
  let vt := pd.vehTypeAt r.vehType
  if r.interior.isEmpty then none
  else if vt.reloadDepots = [] then none
  else if r.maxTrips pd ≤ r.numTrips pd then none
  else if 0 < r.timeWarp pd then none
  else
    let rd := vt.reloadDepots.headD 0
    let dm := pd.distMat vt.profile
    let du := pd.durMat vt.profile
    let client := pd.clientAt U
    let tripDur0 := du rd U + client.serviceDuration + du U rd
    let tripDur := if rd < pd.numDepots then tripDur0 + (pd.depotAt rd).serviceDuration
      else tripDur0
    let reloadCost := if rd < pd.numDepots then (pd.depotAt rd).reloadCost else 0
    if vt.shiftDuration < MAXI ∧ vt.shiftDuration < r.duration pd + tripDur then none
    else
      let arrive := vt.twEarly + r.duration pd - r.timeWarp pd + du rd U
      if client.twLate < arrive then none
      else if vt.twLate < max arrive client.twEarly + client.serviceDuration + du U rd then
        none
      else some (dm rd U + dm U rd + reloadCost - client.prize)

/-- The multi-trip route loop (Solution.cpp:376-452): keep the last strict
improvement over the running best. -/
def multiTripScan (pd : ProblemData) (s : WSol) (U : Nat) :
    List Nat → Int × Option Nat → Int × Option Nat
  | [], st => st
  | i :: rest, st =>
    match multiTripCandidate pd s U i with
    | none => multiTripScan pd s U rest st
    | some c =>
      if c < st.1 then multiTripScan pd s U rest (c, some i)
      else multiTripScan pd s U rest st

/-- The gate on the multi-trip path (Solution.cpp:369): a prize, a solo fit,
and a non-improving standard best. -/
def newTripGate (pd : ProblemData) (s : WSol) (U : Nat) (st2 : (Nat × Nat) × Int) :
    Int × Option Nat :=
  if hasPrizeB pd U = true ∧ clientFitsAloneB pd s U st2.1.1 = true ∧ 0 ≤ st2.2 then
    multiTripScan pd s U (List.range s.routes.length) (st2.2, none)
  else (st2.2, none)

/-- Solution::insert (Solution.cpp:136-488).  `nbs` is U's neighbour list,
`vto` the randomised (vehicle type, slot offset) order.  Returns the updated
solution and whether an insertion was committed. -/
def Solution_insert (pd : ProblemData) (ce : CostEval) (s : WSol) (U : Nat)
    (nbs : List Nat) (vto : List (Nat × Nat)) (required : Bool) : WSol × Bool :=
  match insertScanState pd ce s U nbs vto with
  | none => (s, false)
  | some st2 =>
    if required = true ∨ (newTripGate pd s U st2).1 < 0 then
      match (newTripGate pd s U st2).2 with
      | some i =>
        (updateRoute s i (fun r => ⟨r.vehType,
          r.interior ++ [(pd.vehTypeAt r.vehType).reloadDepots.headD 0, U]⟩), true)
      | none =>
        if wouldExceedCapacityB pd s U st2.1 = true ∧ canUseMultiTripB pd s st2.1.1 = true then
          (updateRoute s st2.1.1 (fun r => ⟨r.vehType,
            r.interior.take st2.1.2
              ++ (pd.vehTypeAt r.vehType).reloadDepots.headD 0 :: U
                :: r.interior.drop st2.1.2⟩), true)
        else (insertClientAt s st2.1.1 st2.1.2 U, true)
    else (s, false)

/-- Invariant of the best-insertion scan: the best position is a valid slot
and interior index, and the running best cost is the insertion cost there. -/
def uaOk (pd : ProblemData) (ce : CostEval) (s : WSol) (U : Nat)
    (st : (Nat × Nat) × Int) : Prop :=
  st.1.1 < s.routes.length ∧ st.1.2 ≤ (routeAt s st.1.1).interior.length ∧
    st.2 = insertCost pd ce s U st.1.1 st.1.2

theorem seedScan_ok (pd : ProblemData) (ce : CostEval) (s : WSol) (U : Nat)
    (reqR : Option Nat) :
    ∀ l : List Nat, (∀ i ∈ l, i < s.routes.length) →
      ∀ st0, seedScan pd ce s U reqR l = some st0 → uaOk pd ce s U st0 := by
  intro l
  induction l with
  | nil => intro _ st0 h; cases h
  | cons i rest ih =>
    intro hl st0 h
    unfold seedScan at h
    by_cases hc : isCompatibleRoute pd s reqR i = true
    · rw [if_pos hc] at h
      cases h
      exact ⟨hl i (by simp), by simp, rfl⟩
    · rw [if_neg hc] at h
      exact ih (fun j hj => hl j (by simp [hj])) st0 h

theorem nbScan_ok (pd : ProblemData) (ce : CostEval) (s : WSol) (U : Nat)
    (reqR : Option Nat) :
    ∀ (nbs : List Nat) (st : (Nat × Nat) × Int), uaOk pd ce s U st →
      uaOk pd ce s U (nbScan pd ce s U reqR nbs st) := by
  intro nbs
  induction nbs with
  | nil => intro st h; exact h
  | cons v rest ih =>
    intro st h
    unfold nbScan
    rcases hf : findClient s v with _ | ⟨rv, pv⟩
    · simp only [hf]
      exact ih st h
    · simp only [hf]
      by_cases hc : isCompatibleRoute pd s reqR rv = true
      · rw [if_pos hc]
        by_cases hlt : insertCost pd ce s U rv pv < st.2
        · rw [if_pos hlt]
          obtain ⟨h1, _, h3, _⟩ := findClientAux_some hf
          exact ih _ ⟨h1, by
            show pv ≤ (routeAt s rv).interior.length
            have : pv - 1 < (routeAt s rv).interior.length := h3
            omega, rfl⟩
        · rw [if_neg hlt]
          exact ih st h
      · rw [if_neg hc]
        exact ih st h

theorem slotScan_ok (pd : ProblemData) (ce : CostEval) (s : WSol) (U : Nat)
    (reqR : Option Nat) :
    ∀ l : List Nat, (∀ j ∈ l, j < s.routes.length) →
      ∀ st, uaOk pd ce s U st → uaOk pd ce s U (slotScan pd ce s U reqR l st) := by
  intro l
  induction l with
  | nil => intro _ st h; exact h
  | cons j rest ih =>
    intro hl st h
    have hj : j < s.routes.length := hl j (by simp)
    have hrest : ∀ j2 ∈ rest, j2 < s.routes.length := fun j2 hj2 => hl j2 (by simp [hj2])
    unfold slotScan
    by_cases hc : ¬ isCompatibleRoute pd s reqR j = true
    · rw [if_pos hc]
      exact ih hrest st h
    · rw [if_neg hc]
      by_cases hskip : ¬ (routeAt s j).interior.isEmpty = true ∧ st.1.1 = j
      · rw [if_pos hskip]
        exact ih hrest st h
      · rw [if_neg hskip]
        by_cases hlt : insertCost pd ce s U j 0 < st.2
        · rw [if_pos hlt]
          by_cases hemp : (routeAt s j).interior.isEmpty = true
          · rw [if_pos hemp]
            exact ⟨hj, by simp, rfl⟩
          · rw [if_neg hemp]
            exact ih hrest _ ⟨hj, by simp, rfl⟩
        · rw [if_neg hlt]
          exact ih hrest st h

theorem vehTypeScan_ok (pd : ProblemData) (ce : CostEval) (s : WSol) (U : Nat)
    (reqR : Option Nat) :
    ∀ vto : List (Nat × Nat),
      (∀ pr ∈ vto, pr.2 + (pd.vehTypeAt pr.1).numAvailable ≤ s.routes.length) →
      ∀ st, uaOk pd ce s U st → uaOk pd ce s U (vehTypeScan pd ce s U reqR vto st) := by
  intro vto
  induction vto with
  | nil => intro _ st h; exact h
  | cons pr rest ih =>
    intro hvto st h
    rcases pr with ⟨t, off⟩
    unfold vehTypeScan
    refine ih (fun q hq => hvto q (by simp [hq])) _ ?_
    refine slotScan_ok pd ce s U reqR _ ?_ st h
    intro j hjm
    rcases List.mem_map.mp hjm with ⟨v, hv, rfl⟩
    have hv2 : v < (pd.vehTypeAt t).numAvailable := List.mem_range.mp hv
    have := hvto (t, off) (by simp)
    simp only at this
    omega

theorem insertScanState_ok (pd : ProblemData) (ce : CostEval) (s : WSol) (U : Nat)
    (nbs : List Nat) (vto : List (Nat × Nat))
    (hvto : ∀ pr ∈ vto, pr.2 + (pd.vehTypeAt pr.1).numAvailable ≤ s.routes.length)
    (st2 : (Nat × Nat) × Int)
    (hstate : insertScanState pd ce s U nbs vto = some st2) :
    uaOk pd ce s U st2 := by
  unfold insertScanState at hstate
  rcases hseed : seedScan pd ce s U (requiredRouteScan s U pd.sameVehicleGroups)
      (List.range s.routes.length) with _ | st0
  · rw [hseed] at hstate
    cases hstate
  · rw [hseed] at hstate
    simp only at hstate
    cases hstate
    refine vehTypeScan_ok pd ce s U _ vto hvto _ ?_
    refine nbScan_ok pd ce s U _ nbs st0 ?_
    exact seedScan_ok pd ce s U _ _ (fun i hi => List.mem_range.mp hi) st0 hseed

/-- Invariant of the multi-trip loop: the chosen route (when any) is a valid
slot whose candidate cost is the running best; without a choice the best is
the initial standard best. -/
def mtOk (pd : ProblemData) (s : WSol) (U : Nat) (b0 : Int) (st : Int × Option Nat) : Prop :=
  (st.2 = none → st.1 = b0) ∧
    (∀ i, st.2 = some i → i < s.routes.length ∧ multiTripCandidate pd s U i = some st.1)

theorem multiTripScan_ok (pd : ProblemData) (s : WSol) (U : Nat) (b0 : Int) :
    ∀ l : List Nat, (∀ i ∈ l, i < s.routes.length) →
      ∀ st, mtOk pd s U b0 st → mtOk pd s U b0 (multiTripScan pd s U l st) := by
  intro l
  induction l with
  | nil => intro _ st h; exact h
  | cons i rest ih =>
    intro hl st h
    have hrest : ∀ j ∈ rest, j < s.routes.length := fun j hj => hl j (by simp [hj])
    unfold multiTripScan
    rcases hc : multiTripCandidate pd s U i with _ | c
    · simp only [hc]
      exact ih hrest st h
    · simp only [hc]
      by_cases hlt : c < st.1
      · rw [if_pos hlt]
        refine ih hrest _ ⟨(fun hn => by cases hn), ?_⟩
        intro j hj
        cases hj
        exact ⟨hl i (by simp), hc⟩
      · rw [if_neg hlt]
        exact ih hrest st h

theorem newTripGate_ok (pd : ProblemData) (s : WSol) (U : Nat)
    (st2 : (Nat × Nat) × Int) :
    ((newTripGate pd s U st2).2 = none → (newTripGate pd s U st2).1 = st2.2) ∧
    (∀ i, (newTripGate pd s U st2).2 = some i →
      hasPrizeB pd U = true ∧ clientFitsAloneB pd s U st2.1.1 = true ∧ 0 ≤ st2.2 ∧
        i < s.routes.length ∧ multiTripCandidate pd s U i = some (newTripGate pd s U st2).1) := by
  unfold newTripGate
  by_cases hg : hasPrizeB pd U = true ∧ clientFitsAloneB pd s U st2.1.1 = true ∧ 0 ≤ st2.2
  · rw [if_pos hg]
    have h := multiTripScan_ok pd s U st2.2 (List.range s.routes.length)
      (fun i hi => List.mem_range.mp hi) (st2.2, none) ⟨(fun _ => rfl), (fun i hi => by cases hi)⟩
    exact ⟨h.1, fun i hi => ⟨hg.1, hg.2.1, hg.2.2, (h.2 i hi).1, (h.2 i hi).2⟩⟩
  · rw [if_neg hg]
    exact ⟨(fun _ => rfl), (fun i hi => by cases hi)⟩

theorem getD_set_self {α : Type} :
    ∀ (l : List α) (i : Nat) (x d : α), i < l.length → (l.set i x).getD i d = x := by
  intro l
  induction l with
  | nil => intro i x d h; simp at h
  | cons a rest ih =>
    intro i x d h
    cases i with
    | zero => rfl
    | succ i0 =>
      simp only [List.set_cons_succ, List.getD_cons_succ]
      exact ih i0 x d (by simpa using h)

theorem getD_mem_of_lt {α : Type} :
    ∀ (l : List α) (i : Nat) (d : α), i < l.length → l.getD i d ∈ l := by
  intro l
  induction l with
  | nil => intro i d h; simp at h
  | cons a rest ih =>
    intro i d h
    cases i with
    | zero => simp
    | succ i0 =>
      simp only [List.getD_cons_succ, List.mem_cons]
      exact Or.inr (ih i0 d (by simpa using h))

theorem getD_append_full {α : Type} :
    ∀ (l1 l2 : List α) (n : Nat) (d : α), (l1 ++ l2).getD (l1.length + n) d = l2.getD n d := by
  intro l1
  induction l1 with
  | nil =>
    intro l2 n d
    simp
  | cons a rest ih =>
    intro l2 n d
    simp only [List.cons_append, List.length_cons]
    have : rest.length + 1 + n = (rest.length + n) + 1 := by omega
    rw [this, List.getD_cons_succ]
    exact ih l2 n d

theorem updateRoute_ne (s : WSol) (i : Nat) (f : WRoute → WRoute) (U : Nat)
    (hi : i < s.routes.length) (hmem : U ∈ (f (routeAt s i)).interior)
    (hnone : ∀ r ∈ s.routes, U ∉ r.interior) : updateRoute s i f ≠ s := by
  intro he
  have h2 : routeAt (updateRoute s i f) i = f (routeAt s i) := by
    unfold updateRoute routeAt
    exact getD_set_self s.routes i (f (routeAt s i)) ⟨0, []⟩ hi
  rw [he] at h2
  exact hnone (routeAt s i) (getD_mem_of_lt s.routes i ⟨0, []⟩ hi) (h2 ▸ hmem)

/-- C3: Solution::insert commits an insertion exactly when `required` holds or
the best found insertion cost (standard scan refined by the multi-trip
candidate) is negative; it returns true iff an insertion was committed (the
solution changed by adding U); and when the insertion would exceed the
current trip's capacity while a new trip is still allowed, a reload depot is
inserted immediately before U. -/
theorem insert_commit_iff (pd : ProblemData) (ce : CostEval) (s : WSol) (U : Nat)
    (nbs : List Nat) (vto : List (Nat × Nat)) (required : Bool)
    (st2 : (Nat × Nat) × Int)
    (hstate : insertScanState pd ce s U nbs vto = some st2)
    (hvto : ∀ pr ∈ vto, pr.2 + (pd.vehTypeAt pr.1).numAvailable ≤ s.routes.length)
    (hU : findClient s U = none) :
    ((Solution_insert pd ce s U nbs vto required).2 = true ↔
      (required = true ∨ (newTripGate pd s U st2).1 < 0)) ∧
    ((Solution_insert pd ce s U nbs vto required).2 = true ↔
      (Solution_insert pd ce s U nbs vto required).1 ≠ s) ∧
    ((Solution_insert pd ce s U nbs vto required).2 = true →
      (newTripGate pd s U st2).2 = none →
      wouldExceedCapacityB pd s U st2.1 = true → canUseMultiTripB pd s st2.1.1 = true →
      (routeAt (Solution_insert pd ce s U nbs vto required).1 st2.1.1).interior.getD st2.1.2 0
          = (pd.vehTypeAt (routeAt s st2.1.1).vehType).reloadDepots.headD 0
        ∧ (routeAt (Solution_insert pd ce s U nbs vto required).1 st2.1.1).interior.getD
            (st2.1.2 + 1) 0 = U) := by
  obtain ⟨hi, hp, hcost⟩ := insertScanState_ok pd ce s U nbs vto hvto st2 hstate
  have hnomem : ∀ r ∈ s.routes, U ∉ r.interior := findClientAux_none hU
  unfold Solution_insert
  rw [hstate]
  simp only
  by_cases hcond : required = true ∨ (newTripGate pd s U st2).1 < 0
  · rw [if_pos hcond]
    rcases hg : (newTripGate pd s U st2).2 with _ | iNew
    · simp only [hg]
      by_cases hwc : wouldExceedCapacityB pd s U st2.1 = true
          ∧ canUseMultiTripB pd s st2.1.1 = true
      · rw [if_pos hwc]
        simp only
        have hne : updateRoute s st2.1.1 (fun r => ⟨r.vehType,
            r.interior.take st2.1.2
              ++ (pd.vehTypeAt r.vehType).reloadDepots.headD 0 :: U
                :: r.interior.drop st2.1.2⟩) ≠ s := by
          apply updateRoute_ne s st2.1.1 _ U hi _ hnomem
          simp
        refine ⟨iff_of_true (by trivial) hcond, iff_of_true (by trivial) hne, ?_⟩
        intro _ _ _ _
        have hroute : routeAt (updateRoute s st2.1.1 (fun r => ⟨r.vehType,
            r.interior.take st2.1.2
              ++ (pd.vehTypeAt r.vehType).reloadDepots.headD 0 :: U
                :: r.interior.drop st2.1.2⟩)) st2.1.1
            = ⟨(routeAt s st2.1.1).vehType,
              (routeAt s st2.1.1).interior.take st2.1.2
                ++ (pd.vehTypeAt (routeAt s st2.1.1).vehType).reloadDepots.headD 0 :: U
                  :: (routeAt s st2.1.1).interior.drop st2.1.2⟩ := by
          unfold updateRoute routeAt
          exact getD_set_self s.routes st2.1.1 _ ⟨0, []⟩ hi
        rw [hroute]
        have hlen : ((routeAt s st2.1.1).interior.take st2.1.2).length = st2.1.2 := by
          rw [List.length_take]
          omega
        constructor
        · have := getD_append_full ((routeAt s st2.1.1).interior.take st2.1.2)
            ((pd.vehTypeAt (routeAt s st2.1.1).vehType).reloadDepots.headD 0 :: U
              :: (routeAt s st2.1.1).interior.drop st2.1.2) 0 0
          rw [hlen] at this
          simpa using this
        · have := getD_append_full ((routeAt s st2.1.1).interior.take st2.1.2)
            ((pd.vehTypeAt (routeAt s st2.1.1).vehType).reloadDepots.headD 0 :: U
              :: (routeAt s st2.1.1).interior.drop st2.1.2) 1 0
          rw [hlen] at this
          simpa using this
      · rw [if_neg hwc]
        have hne : insertClientAt s st2.1.1 st2.1.2 U ≠ s := by
          unfold insertClientAt
          apply updateRoute_ne s st2.1.1 _ U hi _ hnomem
          exact mem_listInsertAt U (routeAt s st2.1.1).interior st2.1.2
        refine ⟨iff_of_true (by trivial) hcond, iff_of_true (by trivial) hne, ?_⟩
        intro _ _ hw hc
        exact absurd ⟨hw, hc⟩ hwc
    · simp only [hg]
      have hvalid := (newTripGate_ok pd s U st2).2 iNew hg
      have hne : updateRoute s iNew (fun r => ⟨r.vehType,
          r.interior ++ [(pd.vehTypeAt r.vehType).reloadDepots.headD 0, U]⟩) ≠ s := by
        apply updateRoute_ne s iNew _ U hvalid.2.2.2.1 _ hnomem
        simp
      refine ⟨iff_of_true (by trivial) hcond, iff_of_true (by trivial) hne, ?_⟩
      intro _ hgn
      cases hgn
  · rw [if_neg hcond]
    exact ⟨iff_of_false (by simp) hcond,
      iff_of_false (by simp) (fun hns => hns rfl), fun ht => by cases ht⟩

theorem schedWarp_mono (pd : ProblemData) (m : Nat → Nat → Int) :
    ∀ (l : List Nat) (st : Int × Int × Nat),
      st.2.1 ≤ (l.foldl (schedStep pd m) st).2.1 := by
  intro l
  induction l with
  | nil => intro st; exact le_refl _
  | cons x rest ih =>
    intro st
    rw [List.foldl_cons]
    refine le_trans ?_ (ih (schedStep pd m st x))
    unfold schedStep
    simp only
    have : (0 : Int) ≤ max 0 (max (st.1 + m st.2.2 x) (locTwEarly pd x) - locTwLate pd x) :=
      le_max_left 0 _
    omega

/-- Time warp is a sum of clamped-to-zero terms, hence non-negative. -/
theorem timeWarp_nonneg (pd : ProblemData) (r : WRoute) : 0 ≤ r.timeWarp pd := by
  unfold WRoute.timeWarp WRoute.schedule
  simp only
  have h1 := schedWarp_mono pd (pd.durMat (pd.vehTypeAt r.vehType).profile)
    (r.interior ++ [(pd.vehTypeAt r.vehType).endDepot])
    ((pd.vehTypeAt r.vehType).twEarly + locService pd (pd.vehTypeAt r.vehType).startDepot,
      0, (pd.vehTypeAt r.vehType).startDepot)
  simp only at h1
  have h2 : (0 : Int) ≤ max 0 (((r.interior ++ [(pd.vehTypeAt r.vehType).endDepot]).foldl
      (schedStep pd (pd.durMat (pd.vehTypeAt r.vehType).profile))
      ((pd.vehTypeAt r.vehType).twEarly + locService pd (pd.vehTypeAt r.vehType).startDepot,
        0, (pd.vehTypeAt r.vehType).startDepot)).1
      - (pd.vehTypeAt r.vehType).twLate) := le_max_left 0 _
  omega

/-- C4: the multi-trip insertion path of Solution::insert.  The candidate
loop runs only when U has a positive prize, fits a trip alone, and the
standard best is non-improving; a route contributes a candidate only when it
is non-empty with reload capability and spare trips, has no time warp, fits
the new trip within the shift duration, and meets the client and vehicle
time windows; the candidate's cost is the round-trip distance to the reload
depot plus its reload cost minus U's prize. -/
theorem multi_trip_path_conditions (pd : ProblemData) (ce : CostEval) (s : WSol)
    (U : Nat) (nbs : List Nat) (vto : List (Nat × Nat)) (st2 : (Nat × Nat) × Int)
    (hstate : insertScanState pd ce s U nbs vto = some st2) :
    (¬ (hasPrizeB pd U = true ∧ clientFitsAloneB pd s U st2.1.1 = true ∧ 0 ≤ st2.2) →
      newTripGate pd s U st2 = (st2.2, none)) ∧
    (∀ i, (newTripGate pd s U st2).2 = some i →
      hasPrizeB pd U = true ∧ clientFitsAloneB pd s U st2.1.1 = true ∧ 0 ≤ st2.2) ∧
    (∀ i c, multiTripCandidate pd s U i = some c →
      ¬ (routeAt s i).interior.isEmpty = true ∧
      (pd.vehTypeAt (routeAt s i).vehType).reloadDepots ≠ [] ∧
      (routeAt s i).numTrips pd < (routeAt s i).maxTrips pd ∧
      (routeAt s i).timeWarp pd = 0 ∧
      ((pd.vehTypeAt (routeAt s i).vehType).shiftDuration < MAXI →
        (routeAt s i).duration pd
            + (pd.durMat (pd.vehTypeAt (routeAt s i).vehType).profile
                ((pd.vehTypeAt (routeAt s i).vehType).reloadDepots.headD 0) U
              + (pd.clientAt U).serviceDuration
              + pd.durMat (pd.vehTypeAt (routeAt s i).vehType).profile U
                ((pd.vehTypeAt (routeAt s i).vehType).reloadDepots.headD 0)
              + (if (pd.vehTypeAt (routeAt s i).vehType).reloadDepots.headD 0 < pd.numDepots
                  then (pd.depotAt
                    ((pd.vehTypeAt (routeAt s i).vehType).reloadDepots.headD 0)).serviceDuration
                  else 0))
          ≤ (pd.vehTypeAt (routeAt s i).vehType).shiftDuration) ∧
      ((pd.vehTypeAt (routeAt s i).vehType).twEarly + (routeAt s i).duration pd
          - (routeAt s i).timeWarp pd
          + pd.durMat (pd.vehTypeAt (routeAt s i).vehType).profile
              ((pd.vehTypeAt (routeAt s i).vehType).reloadDepots.headD 0) U
        ≤ (pd.clientAt U).twLate) ∧
      (max ((pd.vehTypeAt (routeAt s i).vehType).twEarly + (routeAt s i).duration pd
            - (routeAt s i).timeWarp pd
            + pd.durMat (pd.vehTypeAt (routeAt s i).vehType).profile
                ((pd.vehTypeAt (routeAt s i).vehType).reloadDepots.headD 0) U)
          (pd.clientAt U).twEarly
          + (pd.clientAt U).serviceDuration
          + pd.durMat (pd.vehTypeAt (routeAt s i).vehType).profile U
              ((pd.vehTypeAt (routeAt s i).vehType).reloadDepots.headD 0)
        ≤ (pd.vehTypeAt (routeAt s i).vehType).twLate) ∧
      c = pd.distMat (pd.vehTypeAt (routeAt s i).vehType).profile
            ((pd.vehTypeAt (routeAt s i).vehType).reloadDepots.headD 0) U
          + pd.distMat (pd.vehTypeAt (routeAt s i).vehType).profile U
            ((pd.vehTypeAt (routeAt s i).vehType).reloadDepots.headD 0)
          + (if (pd.vehTypeAt (routeAt s i).vehType).reloadDepots.headD 0 < pd.numDepots
              then (pd.depotAt
                ((pd.vehTypeAt (routeAt s i).vehType).reloadDepots.headD 0)).reloadCost
              else 0)
          - (pd.clientAt U).prize) := by
  refine ⟨?_, ?_, ?_⟩
  · intro hng
    unfold newTripGate
    rw [if_neg hng]
  · intro i hi
    have h := (newTripGate_ok pd s U st2).2 i hi
    exact ⟨h.1, h.2.1, h.2.2.1⟩
  · intro i c hc
    unfold multiTripCandidate at hc
    by_cases h1 : (routeAt s i).interior.isEmpty = true
    · rw [if_pos h1] at hc; cases hc
    · rw [if_neg h1] at hc
      by_cases h2 : (pd.vehTypeAt (routeAt s i).vehType).reloadDepots = []
      · rw [if_pos h2] at hc; cases hc
      · rw [if_neg h2] at hc
        by_cases h3 : (routeAt s i).maxTrips pd ≤ (routeAt s i).numTrips pd
        · rw [if_pos h3] at hc; cases hc
        · rw [if_neg h3] at hc
          by_cases h4 : 0 < (routeAt s i).timeWarp pd
          · rw [if_pos h4] at hc; cases hc
          · rw [if_neg h4] at hc
            simp only at hc
            by_cases h5 : (pd.vehTypeAt (routeAt s i).vehType).shiftDuration < MAXI
                ∧ (pd.vehTypeAt (routeAt s i).vehType).shiftDuration
                  < (routeAt s i).duration pd
                    + (pd.durMat (pd.vehTypeAt (routeAt s i).vehType).profile
                        ((pd.vehTypeAt (routeAt s i).vehType).reloadDepots.headD 0) U
                      + (pd.clientAt U).serviceDuration
                      + pd.durMat (pd.vehTypeAt (routeAt s i).vehType).profile U
                        ((pd.vehTypeAt (routeAt s i).vehType).reloadDepots.headD 0)
                      + (if (pd.vehTypeAt (routeAt s i).vehType).reloadDepots.headD 0
                            < pd.numDepots
                          then (pd.depotAt ((pd.vehTypeAt
                            (routeAt s i).vehType).reloadDepots.headD 0)).serviceDuration
                          else 0))
            · rw [if_pos (by
                  constructor
                  · exact h5.1
                  · have := h5.2
                    omega)] at hc
              cases hc
            · rw [if_neg (by
                  intro hcontra
                  apply h5
                  constructor
                  · exact hcontra.1
                  · have := hcontra.2
                    omega)] at hc
              by_cases h6 : (pd.clientAt U).twLate
                  < (pd.vehTypeAt (routeAt s i).vehType).twEarly + (routeAt s i).duration pd
                    - (routeAt s i).timeWarp pd
                    + pd.durMat (pd.vehTypeAt (routeAt s i).vehType).profile
                        ((pd.vehTypeAt (routeAt s i).vehType).reloadDepots.headD 0) U
              · rw [if_pos h6] at hc; cases hc
              · rw [if_neg h6] at hc
                by_cases h7 : (pd.vehTypeAt (routeAt s i).vehType).twLate
                    < max ((pd.vehTypeAt (routeAt s i).vehType).twEarly
                          + (routeAt s i).duration pd - (routeAt s i).timeWarp pd
                          + pd.durMat (pd.vehTypeAt (routeAt s i).vehType).profile
                              ((pd.vehTypeAt (routeAt s i).vehType).reloadDepots.headD 0) U)
                        (pd.clientAt U).twEarly
                      + (pd.clientAt U).serviceDuration
                      + pd.durMat (pd.vehTypeAt (routeAt s i).vehType).profile U
                        ((pd.vehTypeAt (routeAt s i).vehType).reloadDepots.headD 0)
                · rw [if_pos h7] at hc; cases hc
                · rw [if_neg h7] at hc
                  have heq := Option.some.inj hc
                  have hw0 : (routeAt s i).timeWarp pd = 0 :=
                    le_antisymm (by omega) (timeWarp_nonneg pd (routeAt s i))
                  refine ⟨h1, h2, by omega, hw0, ?_, by omega, le_of_not_lt h7, heq.symm⟩
                  intro hs
                  by_contra hgt
                  exact h5 ⟨hs, by omega⟩

/-- Instance for the C3 witness: one depot, one required client at distance
10, one vehicle. -/
def pdW : ProblemData :=
  ⟨[⟨0, 0⟩], [⟨[], [], 0, 0, 1000, 0, true, none⟩],
    [⟨1, [], 0, 0, 0, 0, 1000, MAXI, MAXI, 1, 0, 0, [], 0, ""⟩],
    [fun i j => if i = j then 0 else 10], [fun _ _ => 0], [], 0⟩

def ceW : CostEval := ⟨[], 1, 1⟩

def sW : WSol := ⟨[⟨0, []⟩]⟩

set_option maxRecDepth 100000 in
/-- Witness for C3: the required client is committed although its insertion
cost is positive. -/
theorem insert_commit_iff_witness :
    (Solution_insert pdW ceW sW 1 [] [(0, 0)] true).2 = true := by
  have h := insert_commit_iff pdW ceW sW 1 [] [(0, 0)] true ((0, 0), 20)
    (by decide) (by decide) (by decide)
  exact h.1.mpr (Or.inl rfl)

/-- Instance for the C4 witness: one depot with reload cost 2, prized client
1, routed client 2, a multi-trip vehicle; the reload round trip is cheap, the
detour insertion expensive. -/
def pdM : ProblemData :=
  ⟨[⟨0, 2⟩],
    [⟨[1], [], 0, 0, 100000, 100, false, none⟩, ⟨[1], [], 0, 0, 100000, 0, true, none⟩],
    [⟨1, [10], 0, 0, 0, 0, 100000, MAXI, MAXI, 2, 0, 0, [0], 1, ""⟩],
    [fun i j =>
      if (i = 0 ∧ j = 1) ∨ (i = 1 ∧ j = 0) then 10
      else if (i = 1 ∧ j = 2) ∨ (i = 2 ∧ j = 1) then 200
      else if (i = 0 ∧ j = 2) ∨ (i = 2 ∧ j = 0) then 50
      else 0],
    [fun _ _ => 0], [], 1⟩

def sM : WSol := ⟨[⟨0, [2]⟩]⟩

set_option maxRecDepth 100000 in
/-- Witness for C4 at the instance above: route 0 contributes the candidate
`10 + 10 + 2 - 100 = -78`, and the gate conditions hold. -/
theorem multi_trip_path_conditions_witness :
    multiTripCandidate pdM sM 1 0 = some (-78) ∧
      (routeAt sM 0).timeWarp pdM = 0 ∧
      ((-78 : Int) = pdM.distMat 0 0 1 + pdM.distMat 0 1 0
        + (pdM.depotAt 0).reloadCost - (pdM.clientAt 1).prize) := by
  have h := multi_trip_path_conditions pdM ceW sM 1 [] [(0, 0)] ((0, 0), 220) (by decide)
  have hc := h.2.2 0 (-78) (by decide)
  refine ⟨by decide, hc.2.2.2.1, ?_⟩
  have := hc.2.2.2.2.2.2.2
  simpa using this

-- ---------------------------------------------------------------------------
-- LocalSearch driver moves (LocalSearch.cpp)
-- ---------------------------------------------------------------------------

/-- Modelled from the spec (section 4.H; the operator implementations are not
among the sources): a node or route operator as the driver calls it.
`evalMove` returns the signed penalised-cost delta of the move on the state
of the affected routes; `applyMove` performs it together with the subsequent
`update()` calls. -/
structure SearchOp (σ : Type) where
  evalMove : σ → Int
  applyMove : σ → σ

/-- The spec's exactness contract (section 4.H): for improving moves the
reported delta equals the exact change in penalised cost. -/
def OpExact {σ : Type} (cost : σ → Int) (op : SearchOp σ) : Prop :=
  ∀ st, op.evalMove st < 0 → cost (op.applyMove st) = cost st + op.evalMove st

/-- The operator loop shared by applyNodeOps and applyRouteOps
(LocalSearch.cpp:253-279 and 288-313): the first operator whose evaluation
is negative is applied, and the state and reported delta are returned. -/
def firstImproving {σ : Type} : List (SearchOp σ) → σ → Option (σ × Int)
  | [], _ => none
  | op :: rest, st =>
    if op.evalMove st < 0 then some (op.applyMove st, op.evalMove st)
    else firstImproving rest st

/-- applyNodeOps (LocalSearch.cpp:237-282): the same-vehicle guard
(`allowed`, LocalSearch.cpp:247-251), then the operator loop. -/
def applyNodeOps {σ : Type} (allowed : Bool) (ops : List (SearchOp σ)) (st : σ) :
    Option (σ × Int) :=
  if allowed then firstImproving ops st else none

/-- applyRouteOps (LocalSearch.cpp:284-314). -/
def applyRouteOps {σ : Type} (ops : List (SearchOp σ)) (st : σ) : Option (σ × Int) :=
  firstImproving ops st

theorem firstImproving_exact {σ : Type} (cost : σ → Int) :
    ∀ (ops : List (SearchOp σ)) (st st2 : σ) (δ : Int),
      (∀ op ∈ ops, OpExact cost op) → firstImproving ops st = some (st2, δ) →
      cost st2 = cost st + δ ∧ δ < 0 := by
  intro ops
  induction ops with
  | nil => intro st st2 δ _ h; cases h
  | cons op rest ih =>
    intro st st2 δ hex h
    unfold firstImproving at h
    by_cases hlt : op.evalMove st < 0
    · rw [if_pos hlt] at h
      cases h
      exact ⟨hex op (by simp) st hlt, hlt⟩
    · rw [if_neg hlt] at h
      exact ih st st2 δ (fun o ho => hex o (by simp [ho])) h

/-- C1: for every move the driver accepts (a node-operator move admitted by
applyNodeOps or a route-operator move admitted by applyRouteOps), the
penalised cost after the apply equals the cost before plus the delta the
operator's evaluate reported — the debug assertion
`costAfter == costBefore + deltaCost` (LocalSearch.cpp:275, 307) never
fires — and the delta is negative. -/
theorem accepted_move_delta_exact {σ : Type} (cost : σ → Int)
    (nops rops : List (SearchOp σ)) (st : σ)
    (hn : ∀ op ∈ nops, OpExact cost op) (hr : ∀ op ∈ rops, OpExact cost op) :
    (∀ (allowed : Bool) (st2 : σ) (δ : Int),
      applyNodeOps allowed nops st = some (st2, δ) → cost st2 = cost st + δ ∧ δ < 0) ∧
    (∀ (st2 : σ) (δ : Int),
      applyRouteOps rops st = some (st2, δ) → cost st2 = cost st + δ ∧ δ < 0) := by
  constructor
  · intro allowed st2 δ h
    unfold applyNodeOps at h
    by_cases ha : allowed = true
    · rw [if_pos ha] at h
      exact firstImproving_exact cost nops st st2 δ hn h
    · rw [if_neg ha] at h
      cases h
  · intro st2 δ h
    exact firstImproving_exact cost rops st st2 δ hr h

/-- Total-cost effect of removing a node (out-of-range slots are no-ops). -/
theorem total_removeAt (pd : ProblemData) (ce : CostEval) (s : WSol) (i p : Nat) :
    totalPenalisedCost pd ce (removeAt s i p)
      = totalPenalisedCost pd ce s
        + (if i < s.routes.length then removeCost pd ce s i p else 0) := by
  unfold removeAt removeCost
  rw [total_updateRoute]

/-- Total-cost effect of inserting a client. -/
theorem total_insertClientAt (pd : ProblemData) (ce : CostEval) (s : WSol)
    (i pos U : Nat) :
    totalPenalisedCost pd ce (insertClientAt s i pos U)
      = totalPenalisedCost pd ce s
        + (if i < s.routes.length then insertCost pd ce s U i pos else 0) := by
  unfold insertClientAt insertCost
  rw [total_updateRoute]

/-- Total-cost effect of an in-place replacement. -/
theorem total_inplaceSet (pd : ProblemData) (ce : CostEval) (s : WSol)
    (i p U : Nat) :
    totalPenalisedCost pd ce (inplaceSet s i p U)
      = totalPenalisedCost pd ce s
        + (if i < s.routes.length then inplaceCost pd ce s U i p else 0) := by
  unfold inplaceSet inplaceCost
  rw [total_updateRoute]

/-- A concrete exact operator for the C1 witness: remove the client at
sequence index 1 of route 0, reporting removeCost. -/
def removeOpW : SearchOp WSol :=
  ⟨fun s => removeCost pdW ceW s 0 1, fun s => removeAt s 0 1⟩

theorem removeOpW_exact : OpExact (totalPenalisedCost pdW ceW) removeOpW := by
  intro st h
  show totalPenalisedCost pdW ceW (removeAt st 0 1)
    = totalPenalisedCost pdW ceW st + removeCost pdW ceW st 0 1
  rw [total_removeAt]
  by_cases hl : 0 < st.routes.length
  · rw [if_pos hl]
  · exfalso
    have hnil : st.routes = [] := by
      cases hst : st.routes with
      | nil => rfl
      | cons a l =>
        rw [hst] at hl
        simp at hl
    have hst : st = ⟨[]⟩ := by
      cases st
      simp_all
    rw [hst] at h
    have : removeCost pdW ceW ⟨[]⟩ 0 1 = 0 := by decide
    have h2 : removeOpW.evalMove ⟨[]⟩ = removeCost pdW ceW ⟨[]⟩ 0 1 := rfl
    rw [h2, this] at h
    exact absurd h (by decide)

set_option maxRecDepth 100000 in
/-- Witness for C1: on the instance `pdW` with client 1 routed, the removal
operator's move is accepted and the assertion equation holds with delta -20. -/
theorem accepted_move_delta_exact_witness :
    applyNodeOps true [removeOpW] (⟨[⟨0, [1]⟩]⟩ : WSol) = some (⟨[⟨0, []⟩]⟩, -20) ∧
      totalPenalisedCost pdW ceW ⟨[⟨0, []⟩]⟩
        = totalPenalisedCost pdW ceW ⟨[⟨0, [1]⟩]⟩ + (-20) := by
  have hex : ∀ op ∈ [removeOpW], OpExact (totalPenalisedCost pdW ceW) op := by
    intro op hop
    have : op = removeOpW := by simpa using hop
    rw [this]
    exact removeOpW_exact
  have h := accepted_move_delta_exact (totalPenalisedCost pdW ceW) [removeOpW] []
    (⟨[⟨0, [1]⟩]⟩ : WSol) hex (fun op hop => by cases hop)
  have happ : applyNodeOps true [removeOpW] (⟨[⟨0, [1]⟩]⟩ : WSol)
      = some (⟨[⟨0, []⟩]⟩, -20) := by decide
  exact ⟨happ, (h.1 true ⟨[⟨0, []⟩]⟩ (-20) happ).1⟩

/-- wouldViolateSameVehicle with a null target route (LocalSearch.cpp:185-235,
as invoked from the optional-client moves): removing `U` from its route is
vetoed when another member of one of its same-vehicle groups rides the same
route. -/
def wouldViolateSameVehicleNone (pd : ProblemData) (s : WSol) (U : Nat) : Bool :=
  match findClient s U with
  | none => false
  | some q =>
    pd.sameVehicleGroups.any (fun g => decide (U ∈ g) && g.any (fun o =>
      decide (o ≠ U) && (match findClient s o with
        | some q2 => decide (q2.1 = q.1)
        | none => false)))

/-- applyDepotRemovalMove (LocalSearch.cpp:316-332): remove a reload depot
node (sequence index `p` of route `i`) when that is better or neutral. -/
def applyDepotRemovalMove (pd : ProblemData) (ce : CostEval) (s : WSol) (i p : Nat) : WSol :=
  if 1 ≤ p ∧ p ≤ (routeAt s i).interior.length
      ∧ (routeAt s i).interior.getD (p - 1) 0 < pd.numDepots then
    if removeCost pd ce s i p ≤ 0 then removeAt s i p else s
  else s

/-- The removal branch of applyOptionalClientMoves (LocalSearch.cpp:373-382):
remove `U` if that improves and breaks no same-vehicle group. -/
def optionalRemoveStep (pd : ProblemData) (ce : CostEval) (s : WSol) (U : Nat) : WSol :=
  match findClient s U with
  | none => s
  | some q =>
    if wouldViolateSameVehicleNone pd s U = false ∧ removeCost pd ce s q.1 q.2 < 0 then
      removeAt s q.1 q.2
    else s

/-- The in-place replacement loop of applyOptionalClientMoves
(LocalSearch.cpp:397-421): replace the first non-required routed neighbour
whose replacement by `U` improves. -/
def replaceScan (pd : ProblemData) (ce : CostEval) (s : WSol) (U : Nat) : List Nat → WSol
  | [] => s
  | v :: rest =>
    match findClient s v with
    | none => replaceScan pd ce s U rest
    | some q =>
      if (pd.clientAt v).required = false ∧ wouldViolateSameVehicleNone pd s v = false
          ∧ inplaceCost pd ce s U q.1 q.2 < 0 then
        inplaceSet s q.1 q.2 U
      else replaceScan pd ce s U rest

/-- applyOptionalClientMoves (LocalSearch.cpp:355-422): forced insertion of a
missing required client; then, for optional ungrouped clients, improving
removal, improving insertion, or in-place replacement. -/
def applyOptionalClientMoves (pd : ProblemData) (ce : CostEval) (s : WSol) (U : Nat)
    (nbs : List Nat) (vto : List (Nat × Nat)) : WSol :=
  let s1 := if (pd.clientAt U).required = true ∧ findClient s U = none then
      (Solution_insert pd ce s U nbs vto true).1
    else s
  if (pd.clientAt U).required = true ∨ (pd.clientAt U).group.isSome then s1
  else
    let s2 := optionalRemoveStep pd ce s1 U
    match findClient s2 U with
    | some _ => s2
    | none =>
      if (Solution_insert pd ce s2 U nbs vto false).2 then
        (Solution_insert pd ce s2 U nbs vto false).1
      else replaceScan pd ce s2 U nbs

theorem depotRemoval_le (pd : ProblemData) (ce : CostEval) (s : WSol) (i p : Nat) :
    totalPenalisedCost pd ce (applyDepotRemovalMove pd ce s i p)
      ≤ totalPenalisedCost pd ce s := by
  unfold applyDepotRemovalMove
  split_ifs with h1 h2
  · rw [total_removeAt]
    split_ifs with h3
    · omega
    · omega
  · exact le_refl _
  · exact le_refl _

theorem optionalRemove_le (pd : ProblemData) (ce : CostEval) (s : WSol) (U : Nat) :
    totalPenalisedCost pd ce (optionalRemoveStep pd ce s U)
      ≤ totalPenalisedCost pd ce s := by
  unfold optionalRemoveStep
  rcases hf : findClient s U with _ | q
  · simp only [hf]
    exact le_refl _
  · simp only [hf]
    split_ifs with h1
    · rw [total_removeAt]
      obtain ⟨hq, _, _, _⟩ := findClientAux_some hf
      rw [if_pos hq]
      omega
    · exact le_refl _

theorem replaceScan_le (pd : ProblemData) (ce : CostEval) (s : WSol) (U : Nat) :
    ∀ nbs : List Nat,
      totalPenalisedCost pd ce (replaceScan pd ce s U nbs) ≤ totalPenalisedCost pd ce s := by
  intro nbs
  induction nbs with
  | nil => exact le_refl _
  | cons v rest ih =>
    unfold replaceScan
    rcases hf : findClient s v with _ | q
    · simp only [hf]
      exact ih
    · simp only [hf]
      split_ifs with h1
      · rw [total_inplaceSet]
        obtain ⟨hq, _, _, _⟩ := findClientAux_some hf
        rw [if_pos hq]
        omega
      · exact ih

theorem plainInsert_decreases (pd : ProblemData) (ce : CostEval) (s : WSol) (U : Nat)
    (nbs : List Nat) (vto : List (Nat × Nat)) (st2 : (Nat × Nat) × Int)
    (hstate : insertScanState pd ce s U nbs vto = some st2)
    (hvto : ∀ pr ∈ vto, pr.2 + (pd.vehTypeAt pr.1).numAvailable ≤ s.routes.length)
    (hg : (newTripGate pd s U st2).2 = none)
    (hwc : ¬ (wouldExceedCapacityB pd s U st2.1 = true
      ∧ canUseMultiTripB pd s st2.1.1 = true))
    (hret : (Solution_insert pd ce s U nbs vto false).2 = true) :
    totalPenalisedCost pd ce (Solution_insert pd ce s U nbs vto false).1
      < totalPenalisedCost pd ce s := by
  obtain ⟨hi, hp, hcost⟩ := insertScanState_ok pd ce s U nbs vto hvto st2 hstate
  have hb0 : (newTripGate pd s U st2).1 = st2.2 := (newTripGate_ok pd s U st2).1 hg
  unfold Solution_insert at hret ⊢
  rw [hstate] at hret ⊢
  simp only at hret ⊢
  by_cases hcond : (false = true ∨ (newTripGate pd s U st2).1 < 0)
  · rw [if_pos hcond] at hret ⊢
    simp only [hg] at hret ⊢
    rw [if_neg hwc] at hret ⊢
    simp only
    rw [total_insertClientAt, if_pos hi]
    have hneg : st2.2 < 0 := by
      rcases hcond with h | h
      · cases h
      · rw [hb0] at h
        exact h
    omega
  · rw [if_neg hcond] at hret
    cases hret

/-- C2 (amended): during a search or intensify pass, every committed mutation
whose acceptance is gated on its evaluated cost does not increase the total
penalised cost: node- and route-operator applies (with the spec's exact
deltas) strictly decrease the affected routes' cost, reload-depot removal
never increases the total, the optional-client removal and in-place
replacement branches never increase it, and a committed plain non-required
insertion (no reload depot added, no new trip) strictly decreases it.
Forced insertions of required clients or required groups, group-member
removals, and commits that add a reload depot or a new trip are not
cost-gated and may increase the total penalised cost. -/
theorem cost_gated_moves_nonincreasing :
    (∀ (σ : Type) (cost : σ → Int) (ops : List (SearchOp σ)) (st : σ) (allowed : Bool)
        (st2 : σ) (δ : Int), (∀ op ∈ ops, OpExact cost op) →
        applyNodeOps allowed ops st = some (st2, δ) → cost st2 < cost st) ∧
    (∀ (σ : Type) (cost : σ → Int) (ops : List (SearchOp σ)) (st st2 : σ) (δ : Int),
        (∀ op ∈ ops, OpExact cost op) →
        applyRouteOps ops st = some (st2, δ) → cost st2 < cost st) ∧
    (∀ (pd : ProblemData) (ce : CostEval) (s : WSol) (i p : Nat),
        totalPenalisedCost pd ce (applyDepotRemovalMove pd ce s i p)
          ≤ totalPenalisedCost pd ce s) ∧
    (∀ (pd : ProblemData) (ce : CostEval) (s : WSol) (U : Nat),
        totalPenalisedCost pd ce (optionalRemoveStep pd ce s U)
          ≤ totalPenalisedCost pd ce s) ∧
    (∀ (pd : ProblemData) (ce : CostEval) (s : WSol) (U : Nat) (nbs : List Nat),
        totalPenalisedCost pd ce (replaceScan pd ce s U nbs)
          ≤ totalPenalisedCost pd ce s) ∧
    (∀ (pd : ProblemData) (ce : CostEval) (s : WSol) (U : Nat) (nbs : List Nat)
        (vto : List (Nat × Nat)) (st2 : (Nat × Nat) × Int),
        insertScanState pd ce s U nbs vto = some st2 →
        (∀ pr ∈ vto, pr.2 + (pd.vehTypeAt pr.1).numAvailable ≤ s.routes.length) →
        (newTripGate pd s U st2).2 = none →
        ¬ (wouldExceedCapacityB pd s U st2.1 = true
          ∧ canUseMultiTripB pd s st2.1.1 = true) →
        (Solution_insert pd ce s U nbs vto false).2 = true →
        totalPenalisedCost pd ce (Solution_insert pd ce s U nbs vto false).1
          < totalPenalisedCost pd ce s) := by
  refine ⟨?_, ?_, depotRemoval_le, optionalRemove_le, replaceScan_le, plainInsert_decreases⟩
  · intro σ cost ops st allowed st2 δ hex happ
    have h : cost st2 = cost st + δ ∧ δ < 0 := by
      unfold applyNodeOps at happ
      by_cases ha : allowed = true
      · rw [if_pos ha] at happ
        exact firstImproving_exact cost ops st st2 δ hex happ
      · rw [if_neg ha] at happ
        cases happ
    omega
  · intro σ cost ops st st2 δ hex happ
    have h : cost st2 = cost st + δ ∧ δ < 0 :=
      firstImproving_exact cost ops st st2 δ hex happ
    omega

set_option maxRecDepth 100000 in
/-- C2 counterexample: the claim fails as stated — the forced insertion of a
missing required client in applyOptionalClientMoves (LocalSearch.cpp:360-365)
is a committed pass mutation that increases the total penalised cost: on
`pdW` (one required client at distance 10 from the depot), the pass raises
the total from 0 to 20. -/
theorem pass_mutation_can_increase_cost :
    totalPenalisedCost pdW ceW (applyOptionalClientMoves pdW ceW sW 1 [] [(0, 0)])
      > totalPenalisedCost pdW ceW sW := by
  decide

set_option maxRecDepth 100000 in
/-- Witness for C2 (amended): a concrete reload-depot removal and a plain
improving insertion, both non-increasing. -/
theorem cost_gated_moves_nonincreasing_witness :
    totalPenalisedCost pdW ceW (applyDepotRemovalMove pdW ceW ⟨[⟨0, [1]⟩]⟩ 0 1)
        ≤ totalPenalisedCost pdW ceW ⟨[⟨0, [1]⟩]⟩ ∧
      totalPenalisedCost pdW ceW (optionalRemoveStep pdW ceW ⟨[⟨0, [1]⟩]⟩ 1)
        ≤ totalPenalisedCost pdW ceW ⟨[⟨0, [1]⟩]⟩ := by
  exact ⟨cost_gated_moves_nonincreasing.2.2.1 pdW ceW ⟨[⟨0, [1]⟩]⟩ 0 1,
    cost_gated_moves_nonincreasing.2.2.2.1 pdW ceW ⟨[⟨0, [1]⟩]⟩ 1⟩
